import Mathlib

set_option maxHeartbeats 1000000

/-!
Verification of core components of a cross-border news comparison engine:
the heuristic link extractor, batched title translation, the query-time
retrieval path with its degraded fallback spectrum, the spectrum cache, and
the precomputed spectrum records.

Each definition is a shallow embedding of the corresponding Python function;
external collaborators (regex engine for caller-supplied patterns, the
random-string detector, LLM and translation upstreams, the database) are
modelled as explicit parameters or explicit state.
-/

/-- Python str.isspace for the characters str.strip removes. -/
def pyIsSpace (c : Char) : Bool :=
  c == ' ' || c == '\t' || c == '\n' || c == '\r' || c == '\x0b' || c == '\x0c'

/-- Python str.strip on a character list. -/
def stripChars (cs : List Char) : List Char :=
  ((cs.dropWhile pyIsSpace).reverse.dropWhile pyIsSpace).reverse

/-- Python str.strip: remove leading and trailing whitespace. -/
def stripStr (s : String) : String := String.mk (stripChars s.data)

/-- Prefix test on character lists (basis of str.startswith). -/
def leadsWithL : List Char → List Char → Bool
  | [], _ => true
  | _ :: _, [] => false
  | a :: pa, b :: pb => a == b && leadsWithL pa pb

/-- Python str.startswith. -/
def strStartsWith (s pre : String) : Bool := leadsWithL pre.data s.data

/-- Python str.endswith. -/
def strEndsWith (s post : String) : Bool := leadsWithL post.data.reverse s.data.reverse

/-- str.split(sep) for a one-character separator, accumulator form. -/
def splitOnCharAux (sep : Char) (cur : List Char) : List Char → List (List Char)
  | [] => [cur.reverse]
  | c :: rest =>
    if c == sep then cur.reverse :: splitOnCharAux sep [] rest
    else splitOnCharAux sep (c :: cur) rest

/-- str.split(sep) for a one-character separator. -/
def splitOnChar (sep : Char) (s : String) : List String :=
  (splitOnCharAux sep [] s.data).map String.mk

/-- sep.join(parts). -/
def joinWith (sep : String) : List String → String
  | [] => ""
  | [s] => s
  | s :: t :: rest => s ++ sep ++ joinWith sep (t :: rest)

/-- host.replace("www.", ""): remove every occurrence of "www.",
scanning left to right (specialized structural form of str.replace). -/
def stripWwwL : List Char → List Char
  | 'w' :: 'w' :: 'w' :: '.' :: rest => stripWwwL rest
  | c :: rest => c :: stripWwwL rest
  | [] => []

/-- Keys of a Python dict in insertion order: first occurrences, accumulator form. -/
def firstOccsAux (seen : List String) : List String → List String
  | [] => []
  | a :: rest =>
    if a ∈ seen then firstOccsAux seen rest
    else a :: firstOccsAux (a :: seen) rest

/-- Keys of a Python dict built by repeated insertion: first-occurrence order. -/
def firstOccs (l : List String) : List String := firstOccsAux [] l

/-- Split a list into consecutive chunks of size k (Python slicing loop
`for start in range(0, len(l), k)`). -/
def chunksOf {α : Type} (k : ℕ) : List α → List (List α)
  | [] => []
  | a :: rest => (a :: rest.take (k - 1)) :: chunksOf k (rest.drop (k - 1))
termination_by l => l.length
decreasing_by simp [List.length_drop]; omega

namespace Extractor

/-- Minimal model of a parsed URL (yarl.URL): scheme, lowercased host, path,
query, fragment. Userinfo, ports and percent-encoding normalization are not
modelled; parsing is total (the rare yarl ValueError is not modelled). -/
structure PyUrl where
  scheme : String
  host : String
  path : String
  query : Option String
  fragment : Option String
deriving DecidableEq, Repr

/-- ASCII lowercase of one character (hosts met here are ASCII). -/
def lowerChar (c : Char) : Char :=
  if 'A' ≤ c ∧ c ≤ 'Z' then Char.ofNat (c.toNat + 32) else c

/-- ASCII lowercase of a string. -/
def lowerAscii (s : String) : String := String.mk (s.data.map lowerChar)

/-- Split a character list at the first occurrence of sep; the second
component is none when sep does not occur. -/
def splitFirst (sep : Char) : List Char → List Char × Option (List Char)
  | [] => ([], none)
  | c :: rest =>
    if c = sep then ([], some rest)
    else
      let p := splitFirst sep rest
      (c :: p.1, p.2)

/-- Split off a leading scheme at "://"; none when the string has no scheme part. -/
def splitScheme : List Char → Option (List Char × List Char)
  | ':' :: '/' :: '/' :: rest => some ([], rest)
  | c :: rest =>
    if c = '/' ∨ c = '?' ∨ c = '#' then none
    else (splitScheme rest).map (fun p => (c :: p.1, p.2))
  | [] => none

/-- Parse a URL string into components (model of yarl.URL). -/
def parseUrl (s : String) : PyUrl :=
  let f := splitFirst '#' s.data
  let q := splitFirst '?' f.1
  match splitScheme q.1 with
  | some (sch, rest) =>
    { scheme := String.mk sch
      host := lowerAscii (String.mk (rest.takeWhile (fun c => c ≠ '/')))
      path := String.mk (rest.dropWhile (fun c => c ≠ '/'))
      query := q.2.map String.mk
      fragment := f.2.map String.mk }
  | none =>
    match q.1 with
    | '/' :: '/' :: rest =>
      { scheme := ""
        host := lowerAscii (String.mk (rest.takeWhile (fun c => c ≠ '/')))
        path := String.mk (rest.dropWhile (fun c => c ≠ '/'))
        query := q.2.map String.mk
        fragment := f.2.map String.mk }
    | _ =>
      { scheme := "", host := "", path := String.mk q.1
        query := q.2.map String.mk
        fragment := f.2.map String.mk }

/-- Render a PyUrl back to a string (model of str(yarl.URL)). -/
def renderUrl (u : PyUrl) : String :=
  (if u.scheme ≠ "" then u.scheme ++ "://" else if u.host ≠ "" then "//" else "")
    ++ u.host ++ u.path
    ++ (match u.query with | some q => "?" ++ q | none => "")
    ++ (match u.fragment with | some f => "#" ++ f | none => "")

/-- RFC 3986 dot-segment removal on a path string. -/
def removeDotSegments (p : String) : String :=
  match splitOnChar '/' p with
  | [] => p
  | first :: rest =>
    let segs := rest.foldl
      (fun acc s => if s = "." then acc else if s = ".." then acc.dropLast else acc ++ [s]) []
    let segs :=
      if rest.getLast? = some "." ∨ rest.getLast? = some ".." then segs ++ [""] else segs
    joinWith "/" (first :: segs)

/-- Merge a relative reference onto a base path (base path up to and
including its last slash). -/
def mergeRelPath (basePath rel : String) : String :=
  if basePath = "" then "/" ++ rel
  else String.mk ((basePath.data.reverse.dropWhile (fun c => c ≠ '/')).reverse) ++ rel

/-- Model of requests.compat.urljoin (urllib.parse.urljoin) for the reference
shapes the crawler meets: absolute, protocol-relative, root-relative,
relative, query-only and fragment-only hrefs, with dot-segment removal. -/
def urljoin (base href : String) : String :=
  if href = "" then base
  else if (splitScheme href.data).isSome then href
  else
    let b := parseUrl base
    let f := splitFirst '#' href.data
    let q := splitFirst '?' f.1
    match q.1 with
    | '/' :: '/' :: _ => b.scheme ++ ":" ++ href
    | [] =>
      match q.2 with
      | some qq => renderUrl { b with query := some (String.mk qq), fragment := f.2.map String.mk }
      | none =>
        match f.2 with
        | some ff => renderUrl { b with fragment := some (String.mk ff) }
        | none => renderUrl b
    | '/' :: rest =>
      renderUrl { scheme := b.scheme, host := b.host
                  path := removeDotSegments (String.mk ('/' :: rest))
                  query := q.2.map String.mk, fragment := f.2.map String.mk }
    | other =>
      renderUrl { scheme := b.scheme, host := b.host
                  path := removeDotSegments (mergeRelPath b.path (String.mk other))
                  query := q.2.map String.mk, fragment := f.2.map String.mk }

/-- normalize_host: Python host.replace removing every occurrence of "www.". -/
def normalize_host (host : String) : String := String.mk (stripWwwL host.data)

/-- get_comparable_url_string: normalized host plus path_qs (path and query). -/
def get_comparable_url_string (u : PyUrl) : String :=
  normalize_host u.host ++ u.path ++ (match u.query with | some q => "?" ++ q | none => "")

/-- One or two digits followed by a slash (tail of the slashed date pattern). -/
def dayThenSlash : List Char → Bool
  | a :: '/' :: _ => a.isDigit
  | a :: b :: '/' :: _ => a.isDigit && b.isDigit
  | _ => false

/-- A slash-or-dash separator followed by the day part. -/
def sepThenDay : List Char → Bool
  | s :: r => (s == '/' || s == '-') && dayThenSlash r
  | [] => false

/-- Month of one or two digits, separator, then day part. -/
def monthSepDay : List Char → Bool
  | a :: r =>
    a.isDigit && (sepThenDay r ||
      (match r with | b :: r2 => b.isDigit && sepThenDay r2 | [] => false))
  | [] => false

/-- Match of the slashed date alternative at the head of the list. -/
def slashDateAt : List Char → Bool
  | '/' :: d1 :: d2 :: d3 :: d4 :: '/' :: rest =>
    d1.isDigit && d2.isDigit && d3.isDigit && d4.isDigit && monthSepDay rest
  | _ => false

/-- At least one digit at the head. -/
def leadDigit : List Char → Bool
  | a :: _ => a.isDigit
  | [] => false

/-- Month of one or two digits, dash, then one-or-more-digit day. -/
def dashMonthDay : List Char → Bool
  | a :: '-' :: r => a.isDigit && leadDigit r
  | a :: b :: '-' :: r => a.isDigit && b.isDigit && leadDigit r
  | _ => false

/-- Match of the dashed date alternative at the head of the list. -/
def dashDateAt : List Char → Bool
  | d1 :: d2 :: d3 :: d4 :: '-' :: rest =>
    d1.isDigit && d2.isDigit && d3.isDigit && d4.isDigit && dashMonthDay rest
  | _ => false

/-- re.search: does p match at some suffix start position. -/
def anySuffix (p : List Char → Bool) : List Char → Bool
  | [] => p []
  | c :: rest => p (c :: rest) || anySuffix p rest

/-- The date regex of the extractor: a /YYYY/M(M)/D(D)/ or YYYY-M(M)-D(D)
pattern occurring anywhere in the path. -/
def hasDatePattern (path : String) : Bool :=
  anySuffix (fun l => slashDateAt l || dashDateAt l) path.data

/-- re.search for a run of at least six consecutive digits. -/
def hasSixDigitRun (path : String) : Bool :=
  anySuffix (fun l => ((l.take 6).length == 6) && (l.take 6).all Char.isDigit) path.data

/-- The path-extension regex: .htm, .html, .shtm or .shtml at the end of the path. -/
def hasHtmlSuffix (path : String) : Bool :=
  strEndsWith path ".htm" || strEndsWith path ".html"
    || strEndsWith path ".shtm" || strEndsWith path ".shtml"

/-- Hex digit value. -/
def hexVal (c : Char) : Option ℕ :=
  if c.isDigit then some (c.toNat - 48)
  else if 'a' ≤ c ∧ c ≤ 'f' then some (c.toNat - 87)
  else if 'A' ≤ c ∧ c ≤ 'F' then some (c.toNat - 55)
  else none

/-- urllib.parse.unquote modelled byte-wise (no UTF-8 recombination). -/
def percentDecode : List Char → List Char
  | '%' :: a :: b :: rest =>
    match hexVal a, hexVal b with
    | some x, some y => Char.ofNat (16 * x + y) :: percentDecode rest
    | _, _ => '%' :: percentDecode (a :: b :: rest)
  | c :: rest => c :: percentDecode rest
  | [] => []
termination_by l => l.length
decreasing_by all_goals simp_arith

/-- urllib.parse.unquote on a string. -/
def unquote (s : String) : String := String.mk (percentDecode s.data)

/-- path.rstrip of slashes, split on slash, last component. -/
def slugOf (path : String) : String :=
  let stripped := String.mk ((path.data.reverse.dropWhile (fun c => c == '/')).reverse)
  (splitOnChar '/' stripped).getLastD ""

def MIN_HEADLINE_LENGTH : ℕ := 14
def MIN_SLUG_LENGTH : ℕ := 20

/-- The whitelist loop body of is_likely_article: try the pattern as a
regular expression on the absolute URL (the reMatch oracle, none modelling
re.error); on regex failure compare host-normalized host+path+query strings
as a simple text extension test. -/
def whitelistHit (reMatch : String → String → Option Bool) (full_url_obj : PyUrl)
    (pattern : String) : Bool :=
  match reMatch pattern (renderUrl full_url_obj) with
  | some b => b
  | none =>
    strStartsWith (get_comparable_url_string full_url_obj)
      (get_comparable_url_string (parseUrl pattern))

/-- Shallow embedding of is_likely_article (run_crawl_heuristic.py, lines
81 to 165). The regex matching of caller-supplied whitelist patterns
(re.match) is the parameter reMatch, returning none when the pattern is not
a valid regex (re.error); the RandomStringDetector instance is the parameter
detector, exactly as detector is a parameter in the source. -/
def is_likely_article (reMatch : String → String → Option Bool) (detector : String → Bool)
    (href text base_url : String) (whitelist : List String) : Bool :=
  if href = "" then false
  else if text ≠ "" ∧ ¬ text.data.any Char.isAlpha then false
  else if text.length < MIN_HEADLINE_LENGTH then false
  else
    let base_url_obj := parseUrl base_url
    let full_url_obj := parseUrl (urljoin base_url href)
    if full_url_obj.path = "" ∨ full_url_obj.path = "/" ∨ full_url_obj = base_url_obj then false
    else if whitelist.any (whitelistHit reMatch full_url_obj) then true
    else if ¬ strStartsWith (get_comparable_url_string full_url_obj)
        (get_comparable_url_string base_url_obj) then false
    else if normalize_host base_url_obj.host ≠ normalize_host full_url_obj.host then false
    else
      let path := full_url_obj.path
      let slug := slugOf path
      if slug = "" then false
      else
        let decoded_slug := unquote slug
        let is_short_low_entropy_slug :=
          decide (decoded_slug.length < 16) && ! detector decoded_slug
        let is_short_overall_url :=
          decide ((renderUrl full_url_obj).length < base_url.length * 2)
        if is_short_low_entropy_slug && is_short_overall_url && ! hasDatePattern path then false
        else if hasHtmlSuffix path || hasDatePattern path || hasSixDigitRun path
            || decide (MIN_SLUG_LENGTH < decoded_slug.length) || detector slug then true
        else false

end Extractor

namespace Translator

/-- One element of texts_with_info: (text, source_lang, url). -/
structure TItem where
  text : String
  lang : String
  url : String
deriving DecidableEq, Repr

/-- Outcome of one upstream batch call (client.generate_content followed by
json.loads): a JSON list of strings, a parsed non-list, or a raised
exception. -/
inductive Reply where
  | ok (xs : List String)
  | nonList
  | exn
deriving DecidableEq, Repr

/-- An upstream behaviour: reply per (source language, batch texts). -/
def Upstream : Type := String → List String → Reply

/-- The first pass of translate_batch: results starts all-None; blank texts
are skipped; texts already in the target language are copied stripped. -/
def initialResult (target : String) (items : List TItem) : List (Option String) :=
  items.map (fun it =>
    if stripStr it.text = "" then none
    else if it.lang = target then some (stripStr it.text) else none)

/-- texts_to_translate: (index, text, source_lang) for each non-blank text
whose language differs from the target, indices counted from j. -/
def pendingFrom (target : String) : ℕ → List TItem → List (ℕ × String × String)
  | _, [] => []
  | j, it :: rest =>
    if stripStr it.text = "" then pendingFrom target (j + 1) rest
    else if it.lang = target then pendingFrom target (j + 1) rest
    else (j, it.text, it.lang) :: pendingFrom target (j + 1) rest

/-- The by_lang grouping of texts_to_translate: dict insertion order is
first-occurrence order of languages, each group keeping input order. -/
def byLangGroups (tt : List (ℕ × String × String)) : List (String × List (ℕ × String)) :=
  (firstOccs (tt.map (fun e => e.2.2))).map
    (fun lg => (lg, (tt.filter (fun e => e.2.2 = lg)).map (fun e => (e.1, e.2.1))))

def BATCH_SIZE : ℕ := 50

/-- Value written back for one raw upstream translation:
translation.strip() if translation else None. -/
def writtenValue (t : String) : Option String :=
  if t = "" then none else some (stripStr t)

/-- Process one batch: on a list of the contracted length, write each
translation back at its index; otherwise mark every index of the batch
as failed (None). -/
def applyChunk (u : Upstream) (lg : String) (b : List (ℕ × String))
    (res : List (Option String)) : List (Option String) :=
  match u lg (b.map (fun e => e.2)) with
  | Reply.ok xs =>
    if xs.length = b.length then
      (b.zip xs).foldl (fun r p => r.set p.1.1 (writtenValue p.2)) res
    else
      b.foldl (fun r e => r.set e.1 none) res
  | _ => b.foldl (fun r e => r.set e.1 none) res

/-- Shallow embedding of translate_batch (translator.py, lines 44 to 131),
parameterized by the upstream behaviour. -/
def translate_batch (u : Upstream) (items : List TItem) (target : String) :
    List (Option String) :=
  if items = [] then []
  else
    let res := initialResult target items
    let tt := pendingFrom target 0 items
    if tt = [] then res
    else
      (byLangGroups tt).foldl
        (fun r g => (chunksOf BATCH_SIZE g.2).foldl (fun r2 b => applyChunk u g.1 b r2) r)
        res

/-- Outcome of a contracted reply for the batch b at relative position p. -/
def replyVal (u : Upstream) (lg : String) (b : List (ℕ × String)) (p : ℕ) : Option String :=
  match u lg (b.map (fun e => e.2)) with
  | Reply.ok xs =>
    if xs.length = b.length then
      match xs[p]? with
      | some t => writtenValue t
      | none => none
    else none
  | _ => none

/-- A contract violation: a non-list, an exception, or a list whose length
differs from that of the request. -/
def contractViolated (req : List String) : Reply → Prop
  | Reply.ok xs => xs.length ≠ req.length
  | Reply.nonList => True
  | Reply.exn => True

/-- A row of the article table as selected by translate_paper:
(url, lang, title). -/
structure DbRow where
  url : String
  lang : String
  title : String
deriving DecidableEq, Repr

def target_lang : String := "en"

/-- The texts_with_info list translate_paper builds (skipping rows with no
title). -/
def paperItems (rows : List DbRow) : List TItem :=
  (rows.filter (fun r => r.title ≠ "")).map (fun r => ⟨r.title, r.lang, r.url⟩)

/-- The url_map list translate_paper builds alongside texts_with_info. -/
def paperUrls (rows : List DbRow) : List String :=
  (rows.filter (fun r => r.title ≠ "")).map (fun r => r.url)

/-- The title_translated updates written by the batch path of
translate_paper (run_translate.py, lines 55 to 71): zip url_map with the
batch results and keep truthy translations. translate_batch returns
normally on contract violations, so this path is taken whenever the
upstream replies at all; the except branch runs only when translate_batch
itself or a database write raises. -/
def translate_paper_updates (u : Upstream) (rows : List DbRow) : List (String × String) :=
  let items := paperItems rows
  if items = [] then []
  else
    ((paperUrls rows).zip (translate_batch u items target_lang)).filterMap
      (fun p =>
        match p.2 with
        | some t => if t ≠ "" then some (p.1, t) else none
        | none => none)

/-- Outcome of one per-title upstream call (translate_text): the response
text or an exception. -/
def PerTitleUpstream : Type := String → String → Except Unit String

/-- Shallow embedding of translate_text (translator.py, lines 23 to 42). -/
def translate_text (u1 : PerTitleUpstream) (text target source : String) : Option String :=
  if stripStr text = "" then none
  else
    match u1 source text with
    | Except.ok r => if stripStr r = "" then none else some (stripStr r)
    | Except.error _ => none

/-- The title_translated updates written by the per-title fallback branch of
translate_paper (run_translate.py, lines 74 to 102): same-language titles
are copied verbatim, others go through translate_text; only truthy results
are written. The parameter target is target_lang. -/
def fallback_updates (u1 : PerTitleUpstream) (rows : List DbRow) : List (String × String) :=
  rows.filterMap (fun r =>
    if r.title = "" then none
    else
      let tt := if r.lang ≠ target_lang then translate_text u1 r.title target_lang r.lang
                else some r.title
      match tt with
      | some t => if t ≠ "" then some (r.url, t) else none
      | none => none)


/-- The by_lang group of pending texts for one language, as (index, text)
pairs (the list whose 50-chunks form the upstream batches for lg). -/
def langGroup (items : List TItem) (target lg : String) : List (ℕ × String) :=
  ((pendingFrom target 0 items).filter (fun e => e.2.2 = lg)).map (fun e => (e.1, e.2.1))

/-- All upstream batches of one translate_batch run, tagged with their
language, in processing order. -/
def allBatches (tt : List (ℕ × String × String)) : List (String × List (ℕ × String)) :=
  (byLangGroups tt).flatMap (fun g => (chunksOf BATCH_SIZE g.2).map (fun b => (g.1, b)))

/-- Indices written by a list of tagged batches, in order. -/
def flatIdx (bs : List (String × List (ℕ × String))) : List ℕ :=
  bs.flatMap (fun gb => gb.2.map (fun e => e.1))

/-- Process a list of tagged batches in order over the result list. -/
def processAll (u : Upstream) (bs : List (String × List (ℕ × String)))
    (res : List (Option String)) : List (Option String) :=
  bs.foldl (fun r gb => applyChunk u gb.1 gb.2 r) res

end Translator

/-- JSON values as produced by the query endpoint (numbers restricted to the
integers the endpoint emits). -/
inductive Json where
  | null : Json
  | str : String → Json
  | num : ℤ → Json
  | arr : List Json → Json
  | obj : List (String × Json) → Json

namespace Json

/-- Keys of a JSON object (empty for non-objects). -/
def keys : Json → List String
  | .obj kvs => kvs.map (fun kv => kv.1)
  | _ => []

/-- Insert a key-value pair into a key-sorted association list, keeping
ascending key order (stable). -/
def insertKv (kv : String × Json) : List (String × Json) → List (String × Json)
  | [] => [kv]
  | x :: rest => if kv.1 < x.1 then kv :: x :: rest else x :: insertKv kv rest

/-- Sort an association list by key (Python sorted on dict items). -/
def sortKv : List (String × Json) → List (String × Json)
  | [] => []
  | x :: rest => insertKv x (sortKv rest)

theorem mem_insertKv {kv x : String × Json} {l : List (String × Json)} :
    x ∈ insertKv kv l → x = kv ∨ x ∈ l := by
  induction l with
  | nil =>
    intro hx
    rw [insertKv] at hx
    exact Or.inl (List.mem_singleton.mp hx)
  | cons a rest ih =>
    intro hx
    rw [insertKv] at hx
    by_cases hlt : kv.1 < a.1
    · rw [if_pos hlt] at hx
      rcases List.mem_cons.mp hx with h | h
      · exact Or.inl h
      · exact Or.inr h
    · rw [if_neg hlt] at hx
      rcases List.mem_cons.mp hx with h | h
      · exact Or.inr (h ▸ List.mem_cons_self a rest)
      · rcases ih h with h1 | h1
        · exact Or.inl h1
        · exact Or.inr (List.mem_cons_of_mem a h1)

theorem mem_sortKv {x : String × Json} {l : List (String × Json)} :
    x ∈ sortKv l → x ∈ l := by
  induction l with
  | nil => intro hx; rw [sortKv] at hx; exact hx
  | cons a rest ih =>
    intro hx
    rw [sortKv] at hx
    rcases mem_insertKv hx with h1 | h1
    · exact h1 ▸ List.mem_cons_self a rest
    · exact List.mem_cons_of_mem a (ih h1)

/-- Minimal JSON string escaping (quotes and backslashes). -/
def escapeStr (s : String) : String :=
  (s.data.map (fun c =>
    if c = '"' then String.mk ['\\', '"']
    else if c = '\\' then String.mk ['\\', '\\']
    else String.mk [c])).foldl (fun r t => r ++ t) ""

/-- A JSON string literal. -/
def jstr (s : String) : String := "\"" ++ escapeStr s ++ "\""

theorem sizeOf_lt_arr_of_mem {x : Json} {xs : List Json} (h : x ∈ xs) :
    sizeOf x < sizeOf (Json.arr xs) := by
  have h1 := List.sizeOf_lt_of_mem h
  simp only [arr.sizeOf_spec]
  omega

theorem sizeOf_snd_lt_obj_of_mem {kv : String × Json} {kvs : List (String × Json)}
    (h : kv ∈ kvs) : sizeOf kv.2 < sizeOf (Json.obj kvs) := by
  have h1 := List.sizeOf_lt_of_mem h
  have h2 : sizeOf kv.2 < sizeOf kv := by
    cases kv with
    | mk a b => simp
  simp only [obj.sizeOf_spec]
  omega

/-- json.dumps with sort_keys=True and the default separators. -/
def dumps : Json → String
  | .null => "null"
  | .str s => jstr s
  | .num n => toString n
  | .arr xs =>
    "[" ++ joinWith ", " (xs.attach.map (fun x => dumps x.1)) ++ "]"
  | .obj kvs =>
    "\x7b" ++ joinWith ", "
      ((sortKv kvs).attach.map (fun kv => jstr kv.1.1 ++ ": " ++ dumps kv.1.2)) ++ "\x7d"
termination_by j => sizeOf j
decreasing_by
  · exact sizeOf_lt_arr_of_mem x.2
  · exact sizeOf_snd_lt_obj_of_mem (mem_sortKv kv.2)

end Json

namespace Query

def SIMILARITY_THRESHOLD : ℚ := 63 / 100
def NUM_WORKERS : ℕ := 4
def MIN_ARTICLES_PER_COUNTRY : ℕ := 3

/-- Paper metadata loaded into papers_data. -/
structure PaperInfo where
  iso : String
  country : String
  lang : String
deriving DecidableEq, Repr

/-- One row of the similarity query over the article table. -/
structure ArticleRow where
  url : String
  title_translated : String
  paper_uuid : String
  publish_at : String
  lang : String
  similarity : ℚ
deriving DecidableEq, Repr

/-- One entry of articles_data as assembled by fetch_articles_for_query. -/
structure QArt where
  title : String
  url : String
  iso : String
  country : String
  publish_at : String
  lang : String
  similarity : ℚ
deriving DecidableEq, Repr, Inhabited

/-- Assembly of articles_data from the database rows and the paper map
(query2.py, lines 461 to 472): rows whose paper is unknown are dropped, and
a row with a falsy lang falls back to the paper language. -/
def assembleArticles (papers : String → Option PaperInfo) (rows : List ArticleRow) :
    List QArt :=
  rows.filterMap (fun r =>
    (papers r.paper_uuid).map (fun p =>
      { title := r.title_translated, url := r.url, iso := p.iso, country := p.country
        publish_at := r.publish_at
        lang := if r.lang ≠ "" then r.lang else p.lang
        similarity := r.similarity }))

/-- Number of articles of a given country in a list. -/
def countIso (arts : List QArt) (iso : String) : ℕ :=
  (arts.filter (fun a => a.iso = iso)).length

/-- The country-minimum filter of fetch_articles_for_query (query2.py,
lines 474 to 487): group by ISO in first-occurrence order and keep the
groups with at least MIN_ARTICLES_PER_COUNTRY articles. -/
def countryFilter (arts : List QArt) : List QArt :=
  (firstOccs (arts.map (fun a => a.iso))).foldl
    (fun acc iso =>
      if MIN_ARTICLES_PER_COUNTRY ≤ (arts.filter (fun a => a.iso = iso)).length
      then acc ++ arts.filter (fun a => a.iso = iso)
      else acc)
    []

/-- Shallow embedding of fetch_articles_for_query (query2.py, lines 408 to
491), parameterized by the paper map and the raw similarity rows the
database returns (embedding call and SQL are external). -/
def fetch_articles_for_query (papers : String → Option PaperInfo)
    (rows : List ArticleRow) : List QArt :=
  countryFilter (assembleArticles papers rows)

/-- Python round: round half to even, as a function on rationals. -/
def pyRound (q : ℚ) : ℤ :=
  let f := ⌊q⌋
  let r := q - f
  if r < 1 / 2 then f
  else if 1 / 2 < r then f + 1
  else if Even f then f else f + 1

/-- The degraded-path point id of a country with article count c
(query2.py, lines 606 to 614): linear normalization of the count from
[minC, maxC] onto 1..4 and Python rounding; 1 when all counts are equal.
The Python float arithmetic is modelled by exact rationals. -/
def degradedPointId (c minC maxC : ℕ) : ℤ :=
  if minC < maxC then
    pyRound (1 + ((c : ℚ) - (minC : ℚ)) / ((maxC : ℚ) - (minC : ℚ)) * 3)
  else 1

/-- Python max over a list with the source default
(max(counts) if counts else 1). -/
def pyMaxD (l : List ℕ) : ℕ :=
  match l with
  | [] => 1
  | _ => l.foldl max 0

/-- Python min over a list with the source default
(min(counts) if counts else 0). -/
def pyMinD (l : List ℕ) : ℕ :=
  match l with
  | [] => 0
  | h :: t => t.foldl min h

/-- articles_by_iso grouping of the degraded path (query2.py, lines 581 to
598): ISO keys in first-occurrence order, each with its articles. -/
def articlesByIso (arts : List QArt) : List (String × List QArt) :=
  (firstOccs (arts.map (fun a => a.iso))).map
    (fun iso => (iso, arts.filter (fun a => a.iso = iso)))

/-- The per-country point ids assigned by the degraded fallback spectrum
(query2.py, lines 600 to 618): each country keeps its article count and the
point id obtained by normalizing that count, and that point id is
replicated to every article of the country. -/
def degradedAssignment (arts : List QArt) : List (String × ℕ × ℤ) :=
  let groups := articlesByIso arts
  let counts := groups.map (fun g => g.2.length)
  let maxC := pyMaxD counts
  let minC := pyMinD counts
  groups.map (fun g => (g.1, g.2.length, degradedPointId g.2.length minC maxC))

/-- The (url, point_id) pairs over all articles after the degraded path
replicates each country point id to the country articles. -/
def degradedArticlePointIds (arts : List QArt) : List (String × ℤ) :=
  (degradedAssignment arts).flatMap (fun g =>
    (arts.filter (fun a => a.iso = g.1)).map (fun a => (a.url, g.2.2)))

/-- A cached spectrum record as returned by get_cached_spectrum_analysis:
spectrum_name, spectrum_description, spectrum_points, articles. -/
structure CachedRec where
  spectrum_name : Json
  spectrum_description : Json
  spectrum_points : Json
  articles : Json

/-- The dict get_cached_spectrum_analysis builds from a cache row. -/
def cachedRecToJson (r : CachedRec) : Json :=
  Json.obj [("spectrum_name", r.spectrum_name),
            ("spectrum_description", r.spectrum_description),
            ("spectrum_points", r.spectrum_points),
            ("articles", r.articles)]

/-- The empty-but-valid record execute returns when retrieval finds no
articles (query2.py, lines 567 to 573). -/
def emptyRecord : Json :=
  Json.obj [("spectrum_name", Json.null),
            ("spectrum_description", Json.null),
            ("spectrum_points", Json.arr []),
            ("articles", Json.obj [])]

/-- Labels of the four degraded spectrum points (query2.py, lines 624 to
638): evenly spaced steps from min_count to max_count, with int() floor
division on the float quotient. -/
def degradedSteps (minC maxC : ℕ) : ℤ × ℤ × ℤ × ℤ :=
  if minC < maxC then
    ((minC : ℤ),
     (minC : ℤ) + ⌊((maxC : ℚ) - (minC : ℚ)) / 3⌋,
     (minC : ℤ) + ⌊2 * ((maxC : ℚ) - (minC : ℚ)) / 3⌋,
     (maxC : ℤ))
  else ((minC : ℤ), (minC : ℤ), (minC : ℤ), (minC : ℤ))

/-- label text of a degraded step point. -/
def stepLabel (n : ℤ) (first : Bool) : String :=
  if first then toString n ++ " article" ++ (if n ≠ 1 then "s" else "")
  else toString n ++ " articles"

/-- One article entry of the degraded response: point_id is the country
point id replicated to the article. -/
def degradedArticleJson (a : QArt) (pid : ℤ) : Json :=
  Json.obj [("title", Json.str a.title), ("url", Json.str a.url),
            ("publish_at", Json.str a.publish_at), ("lang", Json.str a.lang),
            ("point_id", Json.num pid)]

/-- The articles object of the degraded response: per ISO, the country name,
the summary produced for countries with at least three articles (None
otherwise), and the articles with the replicated point id. The per-country
summary LLM is the parameter summ. -/
def degradedArticlesJson (summ : String → List QArt → Option String)
    (arts : List QArt) : Json :=
  Json.obj ((degradedAssignment arts).map (fun g =>
    let group := arts.filter (fun a => a.iso = g.1)
    let country := (group.headD default).country
    (g.1, Json.obj [("country", Json.str country),
                    ("articles", Json.arr (group.map (fun a => degradedArticleJson a g.2.2))),
                    ("summary", match (if MIN_ARTICLES_PER_COUNTRY ≤ group.length
                                       then summ country group else none) with
                                | some s => Json.str s
                                | none => Json.null)])))

/-- The degraded "Article Volume" response built on a cache miss with a
non-empty article list (query2.py, lines 575 to 654). -/
def degradedResponse (summ : String → List QArt → Option String)
    (arts : List QArt) : Json :=
  let counts := (articlesByIso arts).map (fun g => g.2.length)
  let maxC := pyMaxD counts
  let minC := pyMinD counts
  let s := degradedSteps minC maxC
  Json.obj [("spectrum_name", Json.str "Article Volume"),
            ("spectrum_description", Json.str "Number of articles about this topic"),
            ("spectrum_points", Json.arr
              [Json.obj [("point_id", Json.num 1), ("label", Json.str (stepLabel s.1 true)),
                         ("description", Json.str "")],
               Json.obj [("point_id", Json.num 2), ("label", Json.str (stepLabel s.2.1 false)),
                         ("description", Json.str "")],
               Json.obj [("point_id", Json.num 3), ("label", Json.str (stepLabel s.2.2.1 false)),
                         ("description", Json.str "")],
               Json.obj [("point_id", Json.num 4), ("label", Json.str (stepLabel s.2.2.2 false)),
                         ("description", Json.str "")]]),
            ("articles", degradedArticlesJson summ arts)]

/-- Shallow embedding of execute (query2.py, lines 543 to 654),
parameterized by the cache lookup result for the resolved
(query, topic_date) key and by the retrieved article list. -/
def execute (cacheRes : Option CachedRec) (arts : List QArt)
    (summ : String → List QArt → Option String) : Json :=
  match cacheRes with
  | some r => cachedRecToJson r
  | none =>
    if arts = [] then emptyRecord
    else degradedResponse summ arts

/-- Shallow embedding of handler.do_GET (query2.py, lines 657 to 700),
parameterized by the SHA-1 hex function, the request parameters and the
If-None-Match header. Returns (status code, body). -/
def do_GET (sha1hex : String → String) (ifNoneMatch : Option String)
    (q ds de : Option String) (cacheRes : Option CachedRec) (arts : List QArt)
    (summ : String → List QArt → Option String) : ℕ × String :=
  match q, ds, de with
  | some _, some _, some _ =>
    let body := Json.dumps (execute cacheRes arts summ)
    let etag := "\"" ++ sha1hex body ++ "\""
    if ifNoneMatch = some etag then (304, "")
    else (200, body)
  | _, _, _ =>
    (400, Json.dumps (Json.obj
      [("error", Json.str "Missing required query parameters: query, date_start, date_end")]))

end Query

namespace Cache

/-- One row of the topic_spectrum_cache table. The JSONB columns are modelled
by the parsed JSON values (json.dumps on write and json.loads on read cancel
through the database wire format). -/
structure TscRow where
  topic : String
  topic_date : String
  spectrum_name : String
  spectrum_description : String
  spectrum_points : Json
  articles_by_country : Json
  created_at : ℕ

/-- The payload of a cache write. -/
structure TscVal where
  spectrum_name : String
  spectrum_description : String
  spectrum_points : Json
  articles_by_country : Json

/-- Shallow embedding of cache_spectrum_analysis (spectrum_cache.py, lines 15
to 58, and query2.py, lines 125 to 148): INSERT .. ON CONFLICT (topic,
topic_date) DO UPDATE, setting created_at = NOW(). The table state is an
explicit row list and NOW() is the parameter now. -/
def cache_spectrum_analysis (st : List TscRow) (now : ℕ) (topic : String)
    (v : TscVal) (topic_date : String) : List TscRow :=
  if st.any (fun r => r.topic = topic ∧ r.topic_date = topic_date) then
    st.map (fun r =>
      if r.topic = topic ∧ r.topic_date = topic_date then
        { r with spectrum_name := v.spectrum_name
                 spectrum_description := v.spectrum_description
                 spectrum_points := v.spectrum_points
                 articles_by_country := v.articles_by_country
                 created_at := now }
      else r)
  else
    st ++ [{ topic := topic, topic_date := topic_date
             spectrum_name := v.spectrum_name
             spectrum_description := v.spectrum_description
             spectrum_points := v.spectrum_points
             articles_by_country := v.articles_by_country
             created_at := now }]

/-- ORDER BY created_at DESC LIMIT 1 over a row list: the row with the
largest created_at (the earlier row on ties). -/
def latestRow (rows : List TscRow) : Option TscRow :=
  rows.foldl (fun acc r =>
    match acc with
    | none => some r
    | some m => if m.created_at < r.created_at then some r else some m) none

/-- Shallow embedding of get_cached_spectrum_analysis (query2.py, lines 44
to 70): select the most recent row for (topic, topic_date) and return its
four record fields (the articles_by_country column is returned under the
key named articles). -/
def get_cached_spectrum_analysis (st : List TscRow) (topic topic_date : String) :
    Option (String × String × Json × Json) :=
  (latestRow (st.filter (fun r => r.topic = topic ∧ r.topic_date = topic_date))).map
    (fun r => (r.spectrum_name, r.spectrum_description,
               r.spectrum_points, r.articles_by_country))

/-- The uniqueness invariant of the (topic, topic_date) key enforced by the
ON CONFLICT target constraint. -/
def KeyUnique (st : List TscRow) : Prop :=
  ∀ r1 ∈ st, ∀ r2 ∈ st,
    r1.topic = r2.topic → r1.topic_date = r2.topic_date → r1 = r2

end Cache

namespace Precompute

open Query

/-- A spectrum point of the analyzer result. -/
structure SpectrumPoint where
  point_id : ℤ
  label : String
  description : String
deriving DecidableEq, Repr

/-- A classification mapping returned by the phase-2 LLM. -/
structure ArticleSpectrumMapping where
  article_id : ℤ
  point_id : ℤ
deriving DecidableEq, Repr

/-- Shallow embedding of classify_articles_batch (query2.py, lines 370 to
405): the LLM reply is the parameter reply (none models an exception or a
JSON parse failure, which yields no mappings); on success every returned
(article_id, point_id) pair is taken as-is, with no validation against the
declared spectrum points. -/
def classify_articles_batch (reply : Option (List (ℤ × ℤ))) (batch : List String)
    (_batch_start_id : ℕ) (_spectrum_points : List SpectrumPoint) :
    List ArticleSpectrumMapping :=
  if batch = [] then []
  else
    match reply with
    | some ms => ms.map (fun m => ⟨m.1, m.2⟩)
    | none => []

/-- mapping_dict built by the precompute job: a dict comprehension over the
mappings, so later duplicates win. -/
def mappingLookup (mappings : List ArticleSpectrumMapping) (id : ℤ) : Option ℤ :=
  ((mappings.filter (fun m => m.article_id = id)).getLast?).map (fun m => m.point_id)

/-- One article entry of the precomputed record
(run_spectrum_cache.py, lines 94 to 100). -/
structure ArtOut where
  title : String
  url : String
  publish_at : String
  lang : String
  point_id : Option ℤ
deriving DecidableEq, Repr

/-- articles_by_iso as assembled by precompute_spectrum_analysis
(run_spectrum_cache.py, lines 79 to 100): enumerate articles_data, look the
1-based index up in mapping_dict (None when absent), and group by ISO in
first-occurrence order. -/
def precompute_articles_by_iso (arts : List QArt)
    (mappings : List ArticleSpectrumMapping) : List (String × List ArtOut) :=
  (firstOccs (arts.map (fun a => a.iso))).map (fun iso =>
    (iso, (arts.enum.filter (fun p => p.2.iso = iso)).map (fun p =>
      { title := p.2.title, url := p.2.url, publish_at := p.2.publish_at
        lang := p.2.lang, point_id := mappingLookup mappings ((p.1 : ℤ) + 1) })))

/-- All point_id values appearing in a precomputed record. -/
def recordPointIds (rec : List (String × List ArtOut)) : List (Option ℤ) :=
  rec.flatMap (fun g => g.2.map (fun a => a.point_id))

end Precompute

/-! ## Theorems -/

section ExtractorTheorems

open Extractor

/-- C1 counterexample: a whitelist pattern that matches the absolute
resolved URL under the regex oracle does not make the extractor accept when
the displayed text is shorter than MIN_HEADLINE_LENGTH: the text checks run
before the whitelist is consulted, so the anchor is rejected even though
the whitelist matches. -/
theorem whitelist_dominance_counterexample :
    whitelistHit (fun _ _ => some true)
      (parseUrl (urljoin "https://x.com/cat/" "https://x.com/news/a1")) "p" = true
    ∧ is_likely_article (fun _ _ => some true) (fun _ => false)
        "https://x.com/news/a1" "short" "https://x.com/cat/" ["p"] = false := by
  constructor
  · rfl
  · rfl

/-- C1 (amended): whitelist dominance holds over every heuristic that
follows the whitelist check. If the anchor has an href, its text contains a
letter and has length at least MIN_HEADLINE_LENGTH, the resolved URL has a
non-empty non-root path and differs from the base URL, and some whitelist
pattern matches (as a regex via the oracle, or as a host-normalized prefix
on regex failure), then is_likely_article accepts, whatever the detector,
the extension check, the host check and the slug heuristics would say. -/
theorem whitelist_dominance (reMatch : String → String → Option Bool)
    (detector : String → Bool) (href text base_url : String) (whitelist : List String)
    (hhref : href ≠ "")
    (halpha : text.data.any Char.isAlpha)
    (hlen : ¬ text.length < MIN_HEADLINE_LENGTH)
    (hpath : ¬ ((parseUrl (urljoin base_url href)).path = "" ∨
                (parseUrl (urljoin base_url href)).path = "/" ∨
                parseUrl (urljoin base_url href) = parseUrl base_url))
    (hwl : whitelist.any (whitelistHit reMatch (parseUrl (urljoin base_url href))) = true) :
    is_likely_article reMatch detector href text base_url whitelist = true := by
  have h2 : ¬ (text ≠ "" ∧ ¬ text.data.any Char.isAlpha) := fun h => h.2 halpha
  unfold is_likely_article
  simp only [if_neg hhref, if_neg h2, if_neg hlen, if_neg hpath, hwl, if_true]

/-- C1 witness: the whitelist-regex scenario of the spec (the jang.com.pk
whitelist), with a regex oracle that matches literal prefixes. -/
theorem whitelist_dominance_witness :
    is_likely_article (fun p s => some (strStartsWith s p)) (fun _ => false)
      "https://www.jang.com.pk/news/1234567-headline"
      "Headline with enough letters here"
      "https://www.jang.com.pk/category/latest-news/world"
      ["https://www.jang.com.pk/news/"] = true :=
  whitelist_dominance (fun p s => some (strStartsWith s p)) (fun _ => false)
    "https://www.jang.com.pk/news/1234567-headline"
    "Headline with enough letters here"
    "https://www.jang.com.pk/category/latest-news/world"
    ["https://www.jang.com.pk/news/"]
    (by decide) (by decide) (by decide) (by decide) (by decide)

/-- C2 counterexample: with base https://www.elnacional.com/mundo/, href
/2025/09/noticia, text "Una noticia importante" and no whitelist, the
extractor rejects the anchor, not accepts it as the claim states: the
resolved URL https://www.elnacional.com/2025/09/noticia is not an extension
of the base category URL, so the anchor is rejected before the date-in-path
override is ever consulted. -/
theorem date_override_scenario_counterexample :
    is_likely_article (fun _ _ => some false) (fun _ => false)
      "/2025/09/noticia" "Una noticia importante"
      "https://www.elnacional.com/mundo/" [] = false := by
  rfl

/-- C2 (amended): for every detector and regex oracle, the anchor
href=/2025/09/noticia with text "Una noticia importante" on base
https://www.elnacional.com/mundo/ and an empty whitelist is rejected; it
fails the is_valid_extension prefix test against the base category URL, so
the category-page and date-pattern logic is never reached. -/
theorem date_override_scenario_rejected (reMatch : String → String → Option Bool)
    (detector : String → Bool) :
    strStartsWith
      (get_comparable_url_string
        (parseUrl (urljoin "https://www.elnacional.com/mundo/" "/2025/09/noticia")))
      (get_comparable_url_string (parseUrl "https://www.elnacional.com/mundo/")) = false
    ∧ is_likely_article reMatch detector "/2025/09/noticia" "Una noticia importante"
        "https://www.elnacional.com/mundo/" [] = false := by
  constructor
  · rfl
  · rfl

end ExtractorTheorems

section FirstOccsLemmas

theorem mem_firstOccsAux {x : String} :
    ∀ {l seen : List String}, x ∈ firstOccsAux seen l ↔ (x ∈ l ∧ x ∉ seen) := by
  intro l
  induction l with
  | nil => intro seen; simp [firstOccsAux]
  | cons a rest ih =>
    intro seen
    rw [firstOccsAux]
    by_cases ha : a ∈ seen
    · rw [if_pos ha, ih]
      constructor
      · rintro ⟨h1, h2⟩
        exact ⟨List.mem_cons_of_mem a h1, h2⟩
      · rintro ⟨h1, h2⟩
        rcases List.mem_cons.mp h1 with h3 | h3
        · exact absurd (h3 ▸ ha) h2
        · exact ⟨h3, h2⟩
    · rw [if_neg ha]
      constructor
      · intro h1
        rcases List.mem_cons.mp h1 with h3 | h3
        · exact ⟨h3 ▸ List.mem_cons_self a rest, h3 ▸ ha⟩
        · rcases ih.mp h3 with ⟨h4, h5⟩
          have h6 : x ∉ seen := fun hx => h5 (List.mem_cons_of_mem a hx)
          exact ⟨List.mem_cons_of_mem a h4, h6⟩
      · rintro ⟨h1, h2⟩
        rcases List.mem_cons.mp h1 with h3 | h3
        · exact h3 ▸ List.mem_cons_self a _
        · by_cases hxa : x = a
          · exact hxa ▸ List.mem_cons_self a _
          · refine List.mem_cons_of_mem a (ih.mpr ⟨h3, ?_⟩)
            intro hx
            rcases List.mem_cons.mp hx with h4 | h4
            · exact hxa h4
            · exact h2 h4

theorem mem_firstOccs {x : String} {l : List String} : x ∈ firstOccs l ↔ x ∈ l := by
  unfold firstOccs
  rw [mem_firstOccsAux]
  simp

theorem nodup_firstOccsAux : ∀ (l seen : List String), (firstOccsAux seen l).Nodup := by
  intro l
  induction l with
  | nil => intro seen; simp [firstOccsAux]
  | cons a rest ih =>
    intro seen
    rw [firstOccsAux]
    by_cases ha : a ∈ seen
    · rw [if_pos ha]; exact ih seen
    · rw [if_neg ha]
      refine List.nodup_cons.mpr ⟨?_, ih (a :: seen)⟩
      intro hmem
      exact (mem_firstOccsAux.mp hmem).2 (List.mem_cons_self a seen)

theorem nodup_firstOccs (l : List String) : (firstOccs l).Nodup :=
  nodup_firstOccsAux l []

end FirstOccsLemmas

section CountryFilterLemmas

open Query

theorem countryFilter_foldl_eq (arts : List QArt) :
    ∀ (isos : List String) (acc : List QArt),
      isos.foldl
        (fun acc iso =>
          if MIN_ARTICLES_PER_COUNTRY ≤ (arts.filter (fun a => a.iso = iso)).length
          then acc ++ arts.filter (fun a => a.iso = iso)
          else acc) acc
      = acc ++ (isos.map (fun iso =>
          if MIN_ARTICLES_PER_COUNTRY ≤ (arts.filter (fun a => a.iso = iso)).length
          then arts.filter (fun a => a.iso = iso)
          else [])).flatten := by
  intro isos
  induction isos with
  | nil => intro acc; simp
  | cons i rest ih =>
    intro acc
    rw [List.foldl_cons, List.map_cons, List.flatten_cons, ih]
    by_cases hk : MIN_ARTICLES_PER_COUNTRY ≤ (arts.filter (fun a => a.iso = i)).length
    · rw [if_pos hk, if_pos hk, List.append_assoc]
    · rw [if_neg hk, if_neg hk, List.nil_append]

theorem countIso_flatten_groups (arts : List QArt) (iso : String) :
    ∀ (isos : List String), isos.Nodup →
      (((isos.map (fun i =>
          if MIN_ARTICLES_PER_COUNTRY ≤ (arts.filter (fun a => a.iso = i)).length
          then arts.filter (fun a => a.iso = i)
          else [])).flatten).filter (fun a => a.iso = iso)).length
      = if iso ∈ isos ∧ MIN_ARTICLES_PER_COUNTRY ≤ (arts.filter (fun a => a.iso = iso)).length
        then (arts.filter (fun a => a.iso = iso)).length else 0 := by
  intro isos
  induction isos with
  | nil => intro _; simp
  | cons i rest ih =>
    intro hnd
    rcases List.nodup_cons.mp hnd with ⟨hni, hnd2⟩
    rw [List.map_cons, List.flatten_cons, List.filter_append, List.length_append, ih hnd2]
    by_cases hio : iso = i
    · subst hio
      have hnotrest : ¬ (iso ∈ rest ∧
          MIN_ARTICLES_PER_COUNTRY ≤ (arts.filter (fun a => a.iso = iso)).length) :=
        fun hc => hni hc.1
      rw [if_neg hnotrest]
      by_cases hk : MIN_ARTICLES_PER_COUNTRY ≤ (arts.filter (fun a => a.iso = iso)).length
      · have hmem : iso ∈ iso :: rest ∧
            MIN_ARTICLES_PER_COUNTRY ≤ (arts.filter (fun a => a.iso = iso)).length :=
          ⟨List.mem_cons_self iso rest, hk⟩
        rw [if_pos hk, if_pos hmem]
        have hff : (arts.filter (fun a => a.iso = iso)).filter (fun a => a.iso = iso)
            = arts.filter (fun a => a.iso = iso) := by
          rw [List.filter_filter]
          apply List.filter_congr
          intro a _
          simp [Bool.and_self]
        rw [hff]
        omega
      · have hmem : ¬ (iso ∈ iso :: rest ∧
            MIN_ARTICLES_PER_COUNTRY ≤ (arts.filter (fun a => a.iso = iso)).length) :=
          fun hc => hk hc.2
        rw [if_neg hk, if_neg hmem]
        simp
    · have hgz : (((if MIN_ARTICLES_PER_COUNTRY ≤ (arts.filter (fun a => a.iso = i)).length
          then arts.filter (fun a => a.iso = i) else [])).filter
            (fun a => a.iso = iso)).length = 0 := by
        split
        · rw [List.length_eq_zero, List.filter_eq_nil_iff]
          intro a ha
          have h2 := (List.mem_filter.mp ha).2
          simp only [decide_eq_true_eq] at h2 ⊢
          rw [h2]
          exact fun hc => hio hc.symm
        · simp
      rw [hgz]
      have hcond : (iso ∈ i :: rest ∧
            MIN_ARTICLES_PER_COUNTRY ≤ (arts.filter (fun a => a.iso = iso)).length)
          ↔ (iso ∈ rest ∧
            MIN_ARTICLES_PER_COUNTRY ≤ (arts.filter (fun a => a.iso = iso)).length) := by
        constructor
        · rintro ⟨h1, h2⟩
          rcases List.mem_cons.mp h1 with h3 | h3
          · exact absurd h3 hio
          · exact ⟨h3, h2⟩
        · rintro ⟨h1, h2⟩
          exact ⟨List.mem_cons_of_mem i h1, h2⟩
      rw [if_congr hcond rfl rfl]
      omega

theorem countIso_pos_iff_mem (arts : List QArt) (iso : String) :
    0 < countIso arts iso ↔ iso ∈ arts.map (fun a => a.iso) := by
  unfold countIso
  rw [List.length_pos_iff_exists_mem]
  constructor
  · rintro ⟨a, ha⟩
    rcases List.mem_filter.mp ha with ⟨h1, h2⟩
    simp only [decide_eq_true_eq] at h2
    exact h2 ▸ List.mem_map_of_mem (fun a => a.iso) h1
  · intro h
    rcases List.mem_map.mp h with ⟨a, h1, h2⟩
    exact ⟨a, List.mem_filter.mpr ⟨h1, by simp [h2]⟩⟩

theorem countIso_countryFilter (arts : List QArt) (iso : String) :
    countIso (countryFilter arts) iso
      = if MIN_ARTICLES_PER_COUNTRY ≤ countIso arts iso then countIso arts iso else 0 := by
  have hraw : countIso arts iso = (arts.filter (fun a => a.iso = iso)).length := rfl
  unfold countryFilter countIso
  rw [countryFilter_foldl_eq, List.nil_append,
    countIso_flatten_groups arts iso _ (nodup_firstOccs _)]
  by_cases hk : MIN_ARTICLES_PER_COUNTRY ≤ (arts.filter (fun a => a.iso = iso)).length
  · have hpos : 0 < countIso arts iso := by
      rw [hraw]
      have h3 : MIN_ARTICLES_PER_COUNTRY = 3 := rfl
      omega
    have hmem : iso ∈ firstOccs (arts.map (fun a => a.iso)) :=
      mem_firstOccs.mpr ((countIso_pos_iff_mem arts iso).mp hpos)
    rw [if_pos ⟨hmem, hk⟩, if_pos hk]
  · have hcomb : ¬ (iso ∈ firstOccs (arts.map (fun a => a.iso)) ∧
        MIN_ARTICLES_PER_COUNTRY ≤ (arts.filter (fun a => a.iso = iso)).length) :=
      fun hc => hk hc.2
    rw [if_neg hcomb, if_neg hk]

theorem mem_countryFilter {arts : List QArt} {a : QArt} :
    a ∈ countryFilter arts ↔ a ∈ arts ∧ MIN_ARTICLES_PER_COUNTRY ≤ countIso arts a.iso := by
  unfold countryFilter
  rw [countryFilter_foldl_eq, List.nil_append]
  rw [List.mem_flatten]
  constructor
  · rintro ⟨g, hg, hag⟩
    rcases List.mem_map.mp hg with ⟨iso, _, hgeq⟩
    subst hgeq
    by_cases hk : MIN_ARTICLES_PER_COUNTRY ≤ (arts.filter (fun x => x.iso = iso)).length
    · rw [if_pos hk] at hag
      rcases List.mem_filter.mp hag with ⟨h1, h2⟩
      simp only [decide_eq_true_eq] at h2
      subst h2
      exact ⟨h1, hk⟩
    · rw [if_neg hk] at hag
      simp at hag
  · rintro ⟨ha, hk⟩
    refine ⟨arts.filter (fun x => x.iso = a.iso), ?_, ?_⟩
    · have hmem : a.iso ∈ firstOccs (arts.map (fun x => x.iso)) :=
        mem_firstOccs.mpr (List.mem_map_of_mem (fun x => x.iso) ha)
      have hmm := List.mem_map_of_mem (fun iso =>
          if MIN_ARTICLES_PER_COUNTRY ≤ (arts.filter (fun x => x.iso = iso)).length
          then arts.filter (fun x => x.iso = iso) else []) hmem
      beta_reduce at hmm
      have hk2 : MIN_ARTICLES_PER_COUNTRY ≤ (arts.filter (fun x => x.iso = a.iso)).length := hk
      rwa [if_pos hk2] at hmm
    · exact List.mem_filter.mpr ⟨ha, by simp⟩

end CountryFilterLemmas

section QueryTheorems

open Query

/-- C5: the country-minimum filter invariant of fetch_articles_for_query.
For every paper map, raw row set and country, the returned list keeps the
country articles in full exactly when the assembled similarity result set
(articles_data) contains at least MIN_ARTICLES_PER_COUNTRY = 3 of them, and
drops the country entirely otherwise; consequently every country that
appears in the result has at least three articles, and membership in the
result is membership in the raw set plus the threshold on its country. -/
theorem fetch_articles_min_country (papers : String → Option PaperInfo)
    (rows : List ArticleRow) (iso : String) (a : QArt) :
    (countIso (fetch_articles_for_query papers rows) iso
      = if MIN_ARTICLES_PER_COUNTRY ≤ countIso (assembleArticles papers rows) iso
        then countIso (assembleArticles papers rows) iso else 0)
    ∧ (a ∈ fetch_articles_for_query papers rows ↔
        a ∈ assembleArticles papers rows ∧
          MIN_ARTICLES_PER_COUNTRY ≤ countIso (assembleArticles papers rows) a.iso) :=
  ⟨countIso_countryFilter _ iso, mem_countryFilter⟩

end QueryTheorems

section DegradedTheorems

open Query

theorem pyRound_bounds (q : ℚ) : ⌊q⌋ ≤ pyRound q ∧ pyRound q ≤ ⌊q⌋ + 1 := by
  simp only [pyRound]
  split_ifs <;> omega

theorem pyRound_mono {q r : ℚ} (h : q ≤ r) : pyRound q ≤ pyRound r := by
  have hf : ⌊q⌋ ≤ ⌊r⌋ := Int.floor_le_floor h
  rcases lt_or_eq_of_le hf with hlt | heq
  · have h1 := (pyRound_bounds q).2
    have h2 := (pyRound_bounds r).1
    omega
  · simp only [pyRound]
    rw [← heq]
    have hrr : q - (⌊q⌋ : ℚ) ≤ r - (⌊q⌋ : ℚ) := by linarith
    split_ifs <;> first | omega | linarith

theorem degradedPointId_mono {c1 c2 minC maxC : ℕ} (h : c1 ≤ c2) :
    degradedPointId c1 minC maxC ≤ degradedPointId c2 minC maxC := by
  unfold degradedPointId
  split_ifs with hmm
  · apply pyRound_mono
    have hden : (0 : ℚ) < (maxC : ℚ) - (minC : ℚ) := by
      have hq : (minC : ℚ) < (maxC : ℚ) := by exact_mod_cast hmm
      linarith
    have hc : ((c1 : ℚ) - (minC : ℚ)) ≤ ((c2 : ℚ) - (minC : ℚ)) := by
      have hq : (c1 : ℚ) ≤ (c2 : ℚ) := by exact_mod_cast h
      linarith
    have h3 : ((c1 : ℚ) - (minC : ℚ)) / ((maxC : ℚ) - (minC : ℚ))
        ≤ ((c2 : ℚ) - (minC : ℚ)) / ((maxC : ℚ) - (minC : ℚ)) :=
      div_le_div_of_nonneg_right hc (le_of_lt hden)
    have h4 := mul_le_mul_of_nonneg_right h3 (by norm_num : (0 : ℚ) ≤ 3)
    linarith
  · exact le_refl 1

/-- C6: degraded-path monotonicity. In the fallback "Article Volume"
spectrum, every country entry (iso, article count, point id) of the
assignment carries the point id obtained by linear normalization of its
count from [min count, max count] onto 1..4 with Python rounding; a country
with strictly more articles receives a point id at least as large as one
with fewer; and every per-article point id is the point id of its country
entry, replicated. -/
theorem degraded_point_id_monotone (arts : List QArt) (x y : String × ℕ × ℤ)
    (hx : x ∈ degradedAssignment arts) (hy : y ∈ degradedAssignment arts)
    (hlt : y.2.1 < x.2.1) :
    y.2.2 ≤ x.2.2
    ∧ (∀ z ∈ degradedAssignment arts,
        z.2.2 = degradedPointId z.2.1
          (pyMinD ((articlesByIso arts).map (fun g => g.2.length)))
          (pyMaxD ((articlesByIso arts).map (fun g => g.2.length))))
    ∧ (∀ p ∈ degradedArticlePointIds arts, ∃ g ∈ degradedAssignment arts, p.2 = g.2.2) := by
  have hform : ∀ z ∈ degradedAssignment arts,
      z.2.2 = degradedPointId z.2.1
        (pyMinD ((articlesByIso arts).map (fun g => g.2.length)))
        (pyMaxD ((articlesByIso arts).map (fun g => g.2.length))) := by
    intro z hz
    unfold degradedAssignment at hz
    rcases List.mem_map.mp hz with ⟨g, _, hzeq⟩
    subst hzeq
    rfl
  refine ⟨?_, hform, ?_⟩
  · have hxe := hform x hx
    have hye := hform y hy
    rw [hxe, hye]
    exact degradedPointId_mono (le_of_lt hlt)
  · intro p hp
    unfold degradedArticlePointIds at hp
    rcases List.mem_flatMap.mp hp with ⟨g, hg, hpg⟩
    rcases List.mem_map.mp hpg with ⟨a, _, hpeq⟩
    exact ⟨g, hg, by rw [← hpeq]⟩

end DegradedTheorems

section EmptyResultTheorems

open Query

/-- C7: empty-result response shape. On a cache miss for the resolved
(query, topic_date) key with empty retrieval, execute returns exactly the
record with spectrum_name null, spectrum_description null, empty
spectrum_points and empty articles; every execute result carries exactly
those four keys on every path; and the HTTP handler answers a request with
all three parameters present with status 200 and that body (a 304 can only
arise when the request already carries the matching If-None-Match ETag). -/
theorem execute_empty_result (sha1hex : String → String) (ifNoneMatch : Option String)
    (qs dss des : String) (cacheRes : Option CachedRec) (arts : List QArt)
    (summ : String → List QArt → Option String)
    (hc : cacheRes = none) (ha : arts = [])
    (hinm : ifNoneMatch ≠ some ("\"" ++ sha1hex (Json.dumps emptyRecord) ++ "\"")) :
    execute cacheRes arts summ = emptyRecord
    ∧ (∀ c a2, (execute c a2 summ).keys
        = ["spectrum_name", "spectrum_description", "spectrum_points", "articles"])
    ∧ do_GET sha1hex ifNoneMatch (some qs) (some dss) (some des) cacheRes arts summ
        = (200, Json.dumps emptyRecord) := by
  subst hc
  subst ha
  refine ⟨rfl, ?_, ?_⟩
  · intro c a2
    cases c with
    | some r => rfl
    | none =>
      by_cases h : a2 = []
      · subst h; rfl
      · show (if a2 = [] then emptyRecord else degradedResponse summ a2).keys = _
        rw [if_neg h]
        rfl
  · have hb : execute (none : Option CachedRec) ([] : List QArt) summ = emptyRecord := rfl
    show (if ifNoneMatch
          = some ("\"" ++ sha1hex (Json.dumps (execute none ([] : List QArt) summ)) ++ "\"")
        then ((304 : ℕ), "")
        else ((200 : ℕ), Json.dumps (execute none ([] : List QArt) summ)))
      = (200, Json.dumps emptyRecord)
    rw [hb, if_neg hinm]

/-- C7 witness: a concrete empty query served with 200 and the empty
record. -/
theorem execute_empty_result_witness :
    do_GET (fun _ => "0") none (some "zzz") (some "2025-01-01") (some "2025-01-02")
        none [] (fun _ _ => none) = (200, Json.dumps emptyRecord)
    ∧ execute none [] (fun _ _ => none) = emptyRecord :=
  ⟨(execute_empty_result (fun _ => "0") none "zzz" "2025-01-01" "2025-01-02"
      none [] (fun _ _ => none) rfl rfl (fun h => Option.noConfusion h)).2.2,
   (execute_empty_result (fun _ => "0") none "zzz" "2025-01-01" "2025-01-02"
      none [] (fun _ _ => none) rfl rfl (fun h => Option.noConfusion h)).1⟩

end EmptyResultTheorems

/-- C6 witness: two articles from USA and one from FRA produce counts 2 and
1, point ids 4 and 1, and the monotonicity and replication facts hold at
that input. -/
theorem degraded_point_id_monotone_witness :
    ((("FRA", 1, 1) : String × ℕ × ℤ).2.2 ≤ (("USA", 2, 4) : String × ℕ × ℤ).2.2)
    ∧ (∀ p ∈ Query.degradedArticlePointIds
        [{ title := "a", url := "u1", iso := "USA", country := "US", publish_at := "d",
           lang := "en", similarity := 0 },
         { title := "b", url := "u2", iso := "USA", country := "US", publish_at := "d",
           lang := "en", similarity := 0 },
         { title := "c", url := "u3", iso := "FRA", country := "FR", publish_at := "d",
           lang := "fr", similarity := 0 }],
        ∃ g ∈ Query.degradedAssignment
          [{ title := "a", url := "u1", iso := "USA", country := "US", publish_at := "d",
             lang := "en", similarity := 0 },
           { title := "b", url := "u2", iso := "USA", country := "US", publish_at := "d",
             lang := "en", similarity := 0 },
           { title := "c", url := "u3", iso := "FRA", country := "FR", publish_at := "d",
             lang := "fr", similarity := 0 }], p.2 = g.2.2) := by
  have hass : Query.degradedAssignment
      [{ title := "a", url := "u1", iso := "USA", country := "US", publish_at := "d",
         lang := "en", similarity := 0 },
       { title := "b", url := "u2", iso := "USA", country := "US", publish_at := "d",
         lang := "en", similarity := 0 },
       { title := "c", url := "u3", iso := "FRA", country := "FR", publish_at := "d",
         lang := "fr", similarity := 0 }]
      = [("USA", 2, 4), ("FRA", 1, 1)] := by
    simp [Query.degradedAssignment, Query.articlesByIso, firstOccs, firstOccsAux,
      Query.pyMaxD, Query.pyMinD, Query.degradedPointId, Query.pyRound]
    norm_num [Int.fract]
  have h := degraded_point_id_monotone
    [{ title := "a", url := "u1", iso := "USA", country := "US", publish_at := "d",
       lang := "en", similarity := 0 },
     { title := "b", url := "u2", iso := "USA", country := "US", publish_at := "d",
       lang := "en", similarity := 0 },
     { title := "c", url := "u3", iso := "FRA", country := "FR", publish_at := "d",
       lang := "fr", similarity := 0 }]
    ("USA", 2, 4) ("FRA", 1, 1)
    (by rw [hass]; simp) (by rw [hass]; simp) (by norm_num)
  exact ⟨h.1, h.2.2⟩

section CacheTheorems

open Cache

theorem cache_write_filter (st : List TscRow) (now : ℕ) (topic tdate : String) (v : TscVal) :
    ((cache_spectrum_analysis st now topic v tdate).filter
        (fun r => r.topic = topic ∧ r.topic_date = tdate)) ≠ []
    ∧ ∀ r ∈ (cache_spectrum_analysis st now topic v tdate).filter
        (fun r => r.topic = topic ∧ r.topic_date = tdate),
        r = ⟨topic, tdate, v.spectrum_name, v.spectrum_description, v.spectrum_points,
             v.articles_by_country, now⟩ := by
  unfold cache_spectrum_analysis
  by_cases hany : st.any (fun r => decide (r.topic = topic ∧ r.topic_date = tdate))
  · rw [if_pos hany]
    constructor
    · rcases List.any_eq_true.mp hany with ⟨r0, hr0, hp0⟩
      simp only [decide_eq_true_eq] at hp0
      apply List.ne_nil_of_mem (a :=
        (⟨topic, tdate, v.spectrum_name, v.spectrum_description, v.spectrum_points,
          v.articles_by_country, now⟩ : TscRow))
      apply List.mem_filter.mpr
      constructor
      · have hmap := List.mem_map_of_mem (fun r =>
          if r.topic = topic ∧ r.topic_date = tdate then
            ({ r with spectrum_name := v.spectrum_name
                      spectrum_description := v.spectrum_description
                      spectrum_points := v.spectrum_points
                      articles_by_country := v.articles_by_country
                      created_at := now } : TscRow)
          else r) hr0
        beta_reduce at hmap
        rw [if_pos hp0] at hmap
        rw [hp0.1, hp0.2] at hmap
        exact hmap
      · simp
    · intro r hr
      rcases List.mem_filter.mp hr with ⟨hrm, hrp⟩
      simp only [decide_eq_true_eq] at hrp
      rcases List.mem_map.mp hrm with ⟨r1, _, hr1eq⟩
      by_cases hp1 : r1.topic = topic ∧ r1.topic_date = tdate
      · rw [if_pos hp1] at hr1eq
        rw [← hp1.1, ← hp1.2]
        exact hr1eq.symm
      · rw [if_neg hp1] at hr1eq
        exact absurd (hr1eq ▸ hrp) hp1
  · rw [if_neg hany]
    have hfst : st.filter (fun r => r.topic = topic ∧ r.topic_date = tdate) = [] := by
      rw [List.filter_eq_nil_iff]
      intro r hrm hrp
      apply hany
      exact List.any_eq_true.mpr ⟨r, hrm, hrp⟩
    rw [List.filter_append, hfst, List.nil_append]
    constructor
    · simp
    · intro r hr
      rcases List.mem_filter.mp hr with ⟨h1, _⟩
      exact List.mem_singleton.mp h1

theorem latestRow_pick (row : TscRow) :
    ∀ (l : List TscRow) (acc : Option TscRow), (∀ r ∈ l, r = row) →
      (acc = none ∨ acc = some row) → (l ≠ [] ∨ acc = some row) →
      l.foldl (fun acc r =>
        match acc with
        | none => some r
        | some m => if m.created_at < r.created_at then some r else some m) acc
      = some row := by
  intro l
  induction l with
  | nil =>
    intro acc _ _ hne
    rcases hne with h | h
    · exact absurd rfl h
    · simpa using h
  | cons a rest ih =>
    intro acc hall hacc _
    have ha : a = row := hall a (List.mem_cons_self a rest)
    subst ha
    have htail := ih (some a) (fun r hr => hall r (List.mem_cons_of_mem a hr))
      (Or.inr rfl) (Or.inr rfl)
    rw [List.foldl_cons]
    rcases hacc with h | h
    · subst h
      exact htail
    · subst h
      show List.foldl (fun acc r =>
        match acc with
        | none => some r
        | some m => if m.created_at < r.created_at then some r else some m)
        (if a.created_at < a.created_at then some a else some a) rest = some a
      rw [ite_self]
      exact htail

theorem read_after_write (st : List TscRow) (now : ℕ) (topic tdate : String) (v : TscVal) :
    get_cached_spectrum_analysis (cache_spectrum_analysis st now topic v tdate) topic tdate
      = some (v.spectrum_name, v.spectrum_description, v.spectrum_points,
              v.articles_by_country) := by
  unfold get_cached_spectrum_analysis latestRow
  rcases cache_write_filter st now topic tdate v with ⟨hne, hall⟩
  rw [latestRow_pick
    (⟨topic, tdate, v.spectrum_name, v.spectrum_description, v.spectrum_points,
      v.articles_by_country, now⟩ : TscRow) _ none hall (Or.inl rfl) (Or.inl hne)]
  rfl

/-- C8: spectrum-cache upsert round-trip. Writing a value for
(topic, topic_date) and reading the same key returns exactly the
just-written spectrum_name, spectrum_description, spectrum_points and
articles_by_country; a second write for the same key replaces the prior
content, the reader returns the most recent content, and after the second
write every row of the key carries the bumped timestamp of that write. -/
theorem spectrum_cache_roundtrip (st : List TscRow) (now1 now2 : ℕ)
    (topic tdate : String) (v1 v2 : TscVal) :
    get_cached_spectrum_analysis (cache_spectrum_analysis st now1 topic v1 tdate) topic tdate
      = some (v1.spectrum_name, v1.spectrum_description, v1.spectrum_points,
              v1.articles_by_country)
    ∧ get_cached_spectrum_analysis
        (cache_spectrum_analysis (cache_spectrum_analysis st now1 topic v1 tdate)
          now2 topic v2 tdate) topic tdate
      = some (v2.spectrum_name, v2.spectrum_description, v2.spectrum_points,
              v2.articles_by_country)
    ∧ ∀ r ∈ (cache_spectrum_analysis (cache_spectrum_analysis st now1 topic v1 tdate)
          now2 topic v2 tdate).filter
        (fun r => r.topic = topic ∧ r.topic_date = tdate),
        r.created_at = now2 := by
  refine ⟨read_after_write st now1 topic tdate v1,
    read_after_write _ now2 topic tdate v2, ?_⟩
  intro r hr
  have hall := (cache_write_filter (cache_spectrum_analysis st now1 topic v1 tdate)
    now2 topic tdate v2).2
  rw [hall r hr]

end CacheTheorems

section PrecomputeTheorems

open Query Precompute

theorem mappingLookup_mem {mappings : List ArticleSpectrumMapping} {id p : ℤ}
    (h : mappingLookup mappings id = some p) :
    ∃ m ∈ mappings, m.point_id = p ∧ m.article_id = id := by
  unfold mappingLookup at h
  rcases Option.map_eq_some'.mp h with ⟨m, hm1, hm2⟩
  have hx : m ∈ (mappings.filter (fun m => m.article_id = id)).getLast? := hm1
  rcases List.mem_getLast?_eq_getLast hx with ⟨hne, heq⟩
  have hmem : m ∈ mappings.filter (fun m => m.article_id = id) :=
    heq ▸ List.getLast_mem hne
  rcases List.mem_filter.mp hmem with ⟨h1, h2⟩
  simp only [decide_eq_true_eq] at h2
  exact ⟨m, h1, hm2, h2⟩

/-- C9 counterexample: the non-degraded precompute path performs no
validation of the classification output. With declared point ids 1 and 2,
an LLM reply mapping article 1 to point 99 and article 2 to point 1 and
leaving article 3 unmapped is taken as-is by classify_articles_batch, and
the assembled record carries point_id 99 (outside the declared set) and a
null point_id for the unmapped article, refuting both halves of the claim
for the non-degraded path. -/
theorem point_id_domain_counterexample :
    classify_articles_batch (some [((1 : ℤ), (99 : ℤ)), (2, 1)]) ["t1", "t2", "t3"] 0
        [⟨1, "A", ""⟩, ⟨2, "B", ""⟩]
      = [⟨1, 99⟩, ⟨2, 1⟩]
    ∧ recordPointIds (precompute_articles_by_iso
        [{ title := "t1", url := "u1", iso := "USA", country := "US", publish_at := "d",
           lang := "en", similarity := 0 },
         { title := "t2", url := "u2", iso := "USA", country := "US", publish_at := "d",
           lang := "en", similarity := 0 },
         { title := "t3", url := "u3", iso := "USA", country := "US", publish_at := "d",
           lang := "en", similarity := 0 }]
        [⟨1, 99⟩, ⟨2, 1⟩])
      = [some 99, some 1, none]
    ∧ (99 : ℤ) ∉ [(1 : ℤ), 2] := by
  refine ⟨rfl, rfl, by decide⟩

/-- C9 (amended): in the record assembled by the non-degraded precompute
path, every article point_id is either null (article with no mapping, for
example from a failed batch) or exactly a point_id the classification LLM
returned, unvalidated; when every returned mapping lies in the declared
point-id set, every non-null point_id of the record lies in the declared
set. -/
theorem point_id_domain (arts : List QArt) (mappings : List ArticleSpectrumMapping)
    (declared : List ℤ)
    (hm : ∀ m ∈ mappings, m.point_id ∈ declared) :
    (∀ pid ∈ recordPointIds (precompute_articles_by_iso arts mappings),
      pid = none ∨ ∃ m ∈ mappings, pid = some m.point_id)
    ∧ (∀ pid ∈ recordPointIds (precompute_articles_by_iso arts mappings),
      ∀ p : ℤ, pid = some p → p ∈ declared) := by
  have hshape : ∀ pid ∈ recordPointIds (precompute_articles_by_iso arts mappings),
      pid = none ∨ ∃ m ∈ mappings, pid = some m.point_id := by
    intro pid hpid
    unfold recordPointIds at hpid
    rcases List.mem_flatMap.mp hpid with ⟨g, hg, hpg⟩
    rcases List.mem_map.mp hpg with ⟨a, _, hpeq⟩
    unfold precompute_articles_by_iso at hg
    rcases List.mem_map.mp hg with ⟨iso, _, hgeq⟩
    subst hgeq
    rcases List.mem_map.mp (by exact hpg) with ⟨a2, ha2, hpeq2⟩
    rcases List.mem_map.mp ha2 with ⟨p2, _, ha2eq⟩
    subst ha2eq
    subst hpeq2
    cases hml : mappingLookup mappings ((p2.1 : ℤ) + 1) with
    | none => exact Or.inl (by simp [hml])
    | some p =>
      rcases mappingLookup_mem hml with ⟨m, hmm, hmp, _⟩
      exact Or.inr ⟨m, hmm, by simp [hml, hmp]⟩
  refine ⟨hshape, ?_⟩
  intro pid hpid p hp
  rcases hshape pid hpid with h | ⟨m, hmm, hmeq⟩
  · rw [h] at hp; exact absurd hp (by simp)
  · rw [hmeq] at hp
    have : m.point_id = p := by
      injection hp
    exact this ▸ hm m hmm

/-- C9 witness: with mappings inside the declared set, the assembled record
carries point_id 1 for the first article, and that point id lies in the
declared set. -/
theorem point_id_domain_witness :
    some (1 : ℤ) ∈ recordPointIds (precompute_articles_by_iso
      [{ title := "t1", url := "u1", iso := "USA", country := "US", publish_at := "d",
         lang := "en", similarity := 0 },
       { title := "t2", url := "u2", iso := "USA", country := "US", publish_at := "d",
         lang := "en", similarity := 0 }]
      [⟨1, 1⟩, ⟨2, 2⟩])
    ∧ (1 : ℤ) ∈ [(1 : ℤ), 2] :=
  ⟨by decide,
   (point_id_domain
    [{ title := "t1", url := "u1", iso := "USA", country := "US", publish_at := "d",
       lang := "en", similarity := 0 },
     { title := "t2", url := "u2", iso := "USA", country := "US", publish_at := "d",
       lang := "en", similarity := 0 }]
    [⟨1, 1⟩, ⟨2, 2⟩] [(1 : ℤ), 2] (by decide)).2 (some 1) (by decide) 1 rfl⟩

end PrecomputeTheorems

section TranslatorLemmas

open Translator

theorem foldl_set_length {σ : Type} (key : σ → ℕ) (val : σ → Option String) :
    ∀ (L : List σ) (res : List (Option String)),
      (L.foldl (fun r x => r.set (key x) (val x)) res).length = res.length := by
  intro L
  induction L with
  | nil => intro res; rfl
  | cons x L ih =>
    intro res
    rw [List.foldl_cons, ih, List.length_set]

theorem foldl_set_getElem?_ne {σ : Type} (key : σ → ℕ) (val : σ → Option String) :
    ∀ (L : List σ) (res : List (Option String)) (i : ℕ), (∀ x ∈ L, key x ≠ i) →
      (L.foldl (fun r x => r.set (key x) (val x)) res)[i]? = res[i]? := by
  intro L
  induction L with
  | nil => intro res i _; rfl
  | cons x L ih =>
    intro res i hne
    rw [List.foldl_cons, ih _ i (fun y hy => hne y (List.mem_cons_of_mem x hy)),
      List.getElem?_set_ne (hne x (List.mem_cons_self x L))]

theorem foldl_set_getElem?_at {σ : Type} (key : σ → ℕ) (val : σ → Option String) :
    ∀ (L : List σ) (res : List (Option String)) (p : ℕ) (s : σ),
      (L.map key).Nodup → L[p]? = some s → key s < res.length →
      (L.foldl (fun r x => r.set (key x) (val x)) res)[key s]? = some (val s) := by
  intro L
  induction L with
  | nil => intro res p s _ hp _; simp at hp
  | cons x L ih =>
    intro res p s hnd hp hlen
    rw [List.map_cons, List.nodup_cons] at hnd
    rw [List.foldl_cons]
    cases p with
    | zero =>
      rw [List.getElem?_cons_zero] at hp
      injection hp with hp
      rw [← hp] at hlen ⊢
      have hne : ∀ y ∈ L, key y ≠ key x := by
        intro y hy hk
        exact hnd.1 (hk ▸ List.mem_map_of_mem key hy)
      rw [foldl_set_getElem?_ne key val L _ _ hne]
      exact List.getElem?_set_self hlen
    | succ p =>
      rw [List.getElem?_cons_succ] at hp
      have hsmem : s ∈ L := List.mem_iff_getElem?.mpr ⟨p, hp⟩
      have hxk : key x ≠ key s := fun hk => hnd.1 (hk ▸ List.mem_map_of_mem key hsmem)
      exact ih _ p s hnd.2 hp (by rw [List.length_set]; exact hlen)

theorem pendingFrom_mem_of {target : String} :
    ∀ (items : List TItem) (j i : ℕ) (hi : i < items.length),
      stripStr (items.get ⟨i, hi⟩).text ≠ "" → (items.get ⟨i, hi⟩).lang ≠ target →
      (j + i, (items.get ⟨i, hi⟩).text, (items.get ⟨i, hi⟩).lang)
        ∈ pendingFrom target j items := by
  intro items
  induction items with
  | nil => intro j i hi; simp at hi
  | cons it rest ih =>
    intro j i hi hblank hlang
    cases i with
    | zero =>
      rw [pendingFrom]
      simp only [List.get] at hblank hlang ⊢
      rw [if_neg hblank, if_neg hlang]
      exact List.mem_cons_self _ _
    | succ i =>
      have hi2 : i < rest.length := Nat.lt_of_succ_lt_succ hi
      have hmem := ih (j + 1) i hi2 hblank hlang
      have harith : j + 1 + i = j + (i + 1) := by omega
      rw [harith] at hmem
      rw [pendingFrom]
      split
      · exact hmem
      · split
        · exact hmem
        · exact List.mem_cons_of_mem _ hmem

theorem pendingFrom_mem {target : String} :
    ∀ (items : List TItem) (j : ℕ) (e : ℕ × String × String),
      e ∈ pendingFrom target j items →
      ∃ i, ∃ hi : i < items.length,
        e.1 = j + i ∧ e.2.1 = (items.get ⟨i, hi⟩).text ∧ e.2.2 = (items.get ⟨i, hi⟩).lang
        ∧ stripStr (items.get ⟨i, hi⟩).text ≠ "" ∧ (items.get ⟨i, hi⟩).lang ≠ target := by
  intro items
  induction items with
  | nil => intro j e he; simp [pendingFrom] at he
  | cons it rest ih =>
    intro j e he
    rw [pendingFrom] at he
    split at he
    · rcases ih (j + 1) e he with ⟨i, hi, h1, h2, h3, h4, h5⟩
      exact ⟨i + 1, Nat.succ_lt_succ hi, by omega, h2, h3, h4, h5⟩
    · split at he
      · rcases ih (j + 1) e he with ⟨i, hi, h1, h2, h3, h4, h5⟩
        exact ⟨i + 1, Nat.succ_lt_succ hi, by omega, h2, h3, h4, h5⟩
      · rcases List.mem_cons.mp he with h | h
        · subst h
          refine ⟨0, Nat.succ_pos _, by omega, rfl, rfl, ?_, ?_⟩
          · show stripStr it.text ≠ ""
            assumption
          · show it.lang ≠ target
            assumption
        · rcases ih (j + 1) e h with ⟨i, hi, h1, h2, h3, h4, h5⟩
          exact ⟨i + 1, Nat.succ_lt_succ hi, by omega, h2, h3, h4, h5⟩

theorem pendingFrom_fst_ge {target : String} :
    ∀ (items : List TItem) (j : ℕ) (e : ℕ × String × String),
      e ∈ pendingFrom target j items → j ≤ e.1 := by
  intro items j e he
  rcases pendingFrom_mem items j e he with ⟨i, hi, h1, _⟩
  omega

theorem pendingFrom_fst_sorted {target : String} :
    ∀ (items : List TItem) (j : ℕ),
      (pendingFrom target j items).Pairwise (fun a b => a.1 < b.1) := by
  intro items
  induction items with
  | nil => intro j; simp [pendingFrom]
  | cons it rest ih =>
    intro j
    rw [pendingFrom]
    split
    · exact ih (j + 1)
    · split
      · exact ih (j + 1)
      · refine List.pairwise_cons.mpr ⟨?_, ih (j + 1)⟩
        intro e he
        have := pendingFrom_fst_ge rest (j + 1) e he
        omega

theorem pendingFrom_fst_nodup {target : String} (items : List TItem) (j : ℕ) :
    ((pendingFrom target j items).map (fun e => e.1)).Nodup := by
  have hp := @pendingFrom_fst_sorted target items j
  have hp2 : (pendingFrom target j items).Pairwise (fun a b => a.1 ≠ b.1) :=
    hp.imp (fun h => Nat.ne_of_lt h)
  exact List.Pairwise.map _ (fun a b h => h) hp2

theorem chunksOf_flatten_le {α : Type} (k : ℕ) :
    ∀ (n : ℕ) (l : List α), l.length ≤ n → (chunksOf k l).flatten = l := by
  intro n
  induction n with
  | zero =>
    intro l hl
    have : l = [] := List.eq_nil_of_length_eq_zero (Nat.le_zero.mp hl)
    subst this
    simp [chunksOf]
  | succ n ih =>
    intro l hl
    cases l with
    | nil => simp [chunksOf]
    | cons a rest =>
      rw [chunksOf, List.flatten_cons, ih (rest.drop (k - 1)) (by simp at hl ⊢; omega),
        List.cons_append, List.take_append_drop]

theorem chunksOf_flatten {α : Type} (k : ℕ) (l : List α) : (chunksOf k l).flatten = l :=
  chunksOf_flatten_le k l.length l (Nat.le_refl _)

end TranslatorLemmas

section TranslatorLemmas2

open Translator

theorem mem_byLangGroups {tt : List (ℕ × String × String)}
    {g : String × List (ℕ × String)} (hg : g ∈ byLangGroups tt) :
    g.1 ∈ firstOccs (tt.map (fun e => e.2.2))
    ∧ g.2 = (tt.filter (fun e => e.2.2 = g.1)).map (fun e => (e.1, e.2.1)) := by
  unfold byLangGroups at hg
  rcases List.mem_map.mp hg with ⟨lg, hlg, hgeq⟩
  subst hgeq
  exact ⟨hlg, rfl⟩

theorem mem_group_pending {tt : List (ℕ × String × String)} {lg : String}
    {e : ℕ × String} (he : e ∈ (tt.filter (fun x => x.2.2 = lg)).map (fun x => (x.1, x.2.1))) :
    ∃ e2 ∈ tt, e2.1 = e.1 ∧ e2.2.1 = e.2 ∧ e2.2.2 = lg := by
  rcases List.mem_map.mp he with ⟨e2, he2, heq⟩
  rcases List.mem_filter.mp he2 with ⟨h1, h2⟩
  simp only [decide_eq_true_eq] at h2
  exact ⟨e2, h1, by rw [← heq], by rw [← heq], h2⟩

theorem mem_allBatches {tt : List (ℕ × String × String)}
    {gb : String × List (ℕ × String)} (hgb : gb ∈ allBatches tt) :
    gb.1 ∈ firstOccs (tt.map (fun e => e.2.2))
    ∧ gb.2 ∈ chunksOf BATCH_SIZE
        ((tt.filter (fun e => e.2.2 = gb.1)).map (fun e => (e.1, e.2.1))) := by
  unfold allBatches at hgb
  rcases List.mem_flatMap.mp hgb with ⟨g, hgmem, hb⟩
  rcases List.mem_map.mp hb with ⟨b, hbmem, hbeq⟩
  rcases mem_byLangGroups hgmem with ⟨h1, h2⟩
  subst hbeq
  exact ⟨h1, h2 ▸ hbmem⟩

theorem mem_batch_pending {tt : List (ℕ × String × String)}
    {gb : String × List (ℕ × String)} {e : ℕ × String}
    (hgb : gb ∈ allBatches tt) (he : e ∈ gb.2) :
    ∃ e2 ∈ tt, e2.1 = e.1 ∧ e2.2.1 = e.2 ∧ e2.2.2 = gb.1 := by
  rcases mem_allBatches hgb with ⟨_, hchunk⟩
  have hflat : e ∈ (chunksOf BATCH_SIZE
      ((tt.filter (fun x => x.2.2 = gb.1)).map (fun x => (x.1, x.2.1)))).flatten :=
    List.mem_flatten_of_mem hchunk he
  rw [chunksOf_flatten] at hflat
  exact mem_group_pending hflat

theorem applyChunk_length (u : Upstream) (lg : String) (b : List (ℕ × String))
    (res : List (Option String)) : (applyChunk u lg b res).length = res.length := by
  unfold applyChunk
  cases u lg (b.map (fun e => e.2)) with
  | ok xs =>
    dsimp only
    by_cases hxl : xs.length = b.length
    · rw [if_pos hxl]
      exact foldl_set_length (fun (q : (ℕ × String) × String) => q.1.1)
        (fun q => writtenValue q.2) _ res
    · rw [if_neg hxl]
      exact foldl_set_length (fun (e : ℕ × String) => e.1) (fun _ => none) _ res
  | nonList =>
    exact foldl_set_length (fun (e : ℕ × String) => e.1) (fun _ => none) _ res
  | exn =>
    exact foldl_set_length (fun (e : ℕ × String) => e.1) (fun _ => none) _ res

theorem applyChunk_getElem?_ne (u : Upstream) (lg : String) (b : List (ℕ × String))
    (res : List (Option String)) (i : ℕ) (hne : ∀ e ∈ b, e.1 ≠ i) :
    (applyChunk u lg b res)[i]? = res[i]? := by
  unfold applyChunk
  cases u lg (b.map (fun e => e.2)) with
  | ok xs =>
    dsimp only
    by_cases hxl : xs.length = b.length
    · rw [if_pos hxl]
      exact foldl_set_getElem?_ne (fun (q : (ℕ × String) × String) => q.1.1)
        (fun q => writtenValue q.2) _ res i
        (fun q hq => hne q.1 (List.of_mem_zip hq).1)
    · rw [if_neg hxl]
      exact foldl_set_getElem?_ne (fun (e : ℕ × String) => e.1) (fun _ => none) _ res i hne
  | nonList =>
    exact foldl_set_getElem?_ne (fun (e : ℕ × String) => e.1) (fun _ => none) _ res i hne
  | exn =>
    exact foldl_set_getElem?_ne (fun (e : ℕ × String) => e.1) (fun _ => none) _ res i hne

theorem applyChunk_getElem?_at (u : Upstream) (lg : String) (b : List (ℕ × String))
    (res : List (Option String)) (p : ℕ) (e : ℕ × String)
    (hnd : (b.map (fun x => x.1)).Nodup) (hp : b[p]? = some e) (hlen : e.1 < res.length) :
    (applyChunk u lg b res)[e.1]? = some (replyVal u lg b p) := by
  unfold applyChunk replyVal
  cases u lg (b.map (fun x => x.2)) with
  | ok xs =>
    dsimp only
    by_cases hxl : xs.length = b.length
    · rw [if_pos hxl, if_pos hxl]
      have hpb : p < b.length := by
        rcases List.getElem?_eq_some.mp hp with ⟨h, _⟩
        exact h
      have hpx : p < xs.length := by omega
      have hx : xs[p]? = some xs[p] := List.getElem?_eq_getElem hpx
      have hz : (b.zip xs)[p]? = some (e, xs[p]) :=
        List.getElem?_zip_eq_some.mpr ⟨hp, hx⟩
      have hznd : ((b.zip xs).map (fun (q : (ℕ × String) × String) => q.1.1)).Nodup := by
        have hcomp : (b.zip xs).map (fun (q : (ℕ × String) × String) => q.1.1)
            = ((b.zip xs).map Prod.fst).map (fun x => x.1) := by
          rw [List.map_map]
          rfl
        rw [hcomp, List.map_fst_zip b xs (by omega)]
        exact hnd
      have hval := foldl_set_getElem?_at (fun (q : (ℕ × String) × String) => q.1.1)
        (fun q => writtenValue q.2) (b.zip xs) res p (e, xs[p]) hznd hz hlen
      rw [hval, hx]
    · rw [if_neg hxl, if_neg hxl]
      exact foldl_set_getElem?_at (fun (x : ℕ × String) => x.1) (fun _ => none)
        b res p e hnd hp hlen
  | nonList =>
    exact foldl_set_getElem?_at (fun (x : ℕ × String) => x.1) (fun _ => none)
      b res p e hnd hp hlen
  | exn =>
    exact foldl_set_getElem?_at (fun (x : ℕ × String) => x.1) (fun _ => none)
      b res p e hnd hp hlen

theorem processAll_length (u : Upstream) :
    ∀ (bs : List (String × List (ℕ × String))) (res : List (Option String)),
      (processAll u bs res).length = res.length := by
  intro bs
  induction bs with
  | nil => intro res; rfl
  | cons gb bs ih =>
    intro res
    unfold processAll at ih ⊢
    rw [List.foldl_cons, ih, applyChunk_length]

theorem processAll_getElem?_ne (u : Upstream) :
    ∀ (bs : List (String × List (ℕ × String))) (res : List (Option String)) (i : ℕ),
      (∀ gb ∈ bs, ∀ e ∈ gb.2, e.1 ≠ i) → (processAll u bs res)[i]? = res[i]? := by
  intro bs
  induction bs with
  | nil => intro res i _; rfl
  | cons gb bs ih =>
    intro res i hne
    unfold processAll at ih ⊢
    rw [List.foldl_cons, ih _ i (fun x hx => hne x (List.mem_cons_of_mem gb hx)),
      applyChunk_getElem?_ne u gb.1 gb.2 res i (hne gb (List.mem_cons_self gb bs))]

theorem processAll_getElem?_at (u : Upstream)
    (B1 B2 : List (String × List (ℕ × String))) (lg : String) (b : List (ℕ × String))
    (p : ℕ) (e : ℕ × String) (res : List (Option String))
    (hnd : (b.map (fun x => x.1)).Nodup) (hp : b[p]? = some e)
    (hB2 : ∀ gb ∈ B2, ∀ e2 ∈ gb.2, e2.1 ≠ e.1) (hlen : e.1 < res.length) :
    (processAll u (B1 ++ (lg, b) :: B2) res)[e.1]? = some (replyVal u lg b p) := by
  unfold processAll
  rw [List.foldl_append, List.foldl_cons]
  have h1 : (processAll u B1 res).length = res.length := processAll_length u B1 res
  have := processAll_getElem?_ne u B2
    (applyChunk u lg b (processAll u B1 res)) e.1 hB2
  unfold processAll at this
  rw [this]
  exact applyChunk_getElem?_at u lg b (processAll u B1 res) p e hnd hp (by omega)

end TranslatorLemmas2

section TranslatorLemmas3

open Translator

theorem flatIdx_allBatches (tt : List (ℕ × String × String)) :
    flatIdx (allBatches tt)
      = (byLangGroups tt).flatMap (fun g => g.2.map (fun e => e.1)) := by
  unfold flatIdx allBatches
  rw [List.flatMap_assoc]
  congr 1
  funext g
  rw [List.flatMap_map]
  dsimp only
  rw [List.flatMap_def, ← List.map_flatten, chunksOf_flatten]

theorem group_fst_map (tt : List (ℕ × String × String)) (lg : String) :
    ((tt.filter (fun e => e.2.2 = lg)).map (fun e => (e.1, e.2.1))).map
        (fun e => e.1)
      = (tt.filter (fun e => e.2.2 = lg)).map (fun e => e.1) := by
  rw [List.map_map]
  rfl

theorem flatIdx_nodup {target : String} (items : List TItem) :
    (flatIdx (allBatches (pendingFrom target 0 items))).Nodup := by
  rw [flatIdx_allBatches]
  set tt := pendingFrom target 0 items with htt
  have httnd : (tt.map (fun e => e.1)).Nodup := pendingFrom_fst_nodup items 0
  unfold byLangGroups
  rw [List.flatMap_map]
  apply List.nodup_flatMap.mpr
  constructor
  · intro lg _
    dsimp only
    rw [group_fst_map]
    apply List.Sublist.nodup (List.Sublist.map _ (List.filter_sublist tt)) httnd
  · have hlnd : (firstOccs (tt.map (fun e => e.2.2))).Nodup := nodup_firstOccs _
    apply List.Pairwise.imp ?_ hlnd
    intro lg1 lg2 hne
    dsimp only [Function.onFun]
    rw [group_fst_map, group_fst_map]
    rw [List.disjoint_left]
    intro i hi1 hi2
    rcases List.mem_map.mp hi1 with ⟨e1, he1, he1i⟩
    rcases List.mem_map.mp hi2 with ⟨e2, he2, he2i⟩
    rcases List.mem_filter.mp he1 with ⟨he1m, he1p⟩
    rcases List.mem_filter.mp he2 with ⟨he2m, he2p⟩
    simp only [decide_eq_true_eq] at he1p he2p
    have hee : e1 = e2 :=
      List.inj_on_of_nodup_map httnd he1m he2m (by rw [he1i, he2i])
    exact hne (by rw [← he1p, hee, he2p])

theorem foldl_groups_eq (u : Upstream) :
    ∀ (gs : List (String × List (ℕ × String))) (res : List (Option String)),
      gs.foldl (fun r g =>
        (chunksOf BATCH_SIZE g.2).foldl (fun r2 b => applyChunk u g.1 b r2) r) res
      = processAll u (gs.flatMap (fun g =>
          (chunksOf BATCH_SIZE g.2).map (fun b => (g.1, b)))) res := by
  intro gs
  induction gs with
  | nil => intro res; rfl
  | cons g gs ih =>
    intro res
    rw [List.foldl_cons, List.flatMap_cons]
    unfold processAll
    rw [List.foldl_append]
    have hinner : ((chunksOf BATCH_SIZE g.2).map (fun b => (g.1, b))).foldl
        (fun r gb => applyChunk u gb.1 gb.2 r) res
        = (chunksOf BATCH_SIZE g.2).foldl (fun r2 b => applyChunk u g.1 b r2) res := by
      rw [List.foldl_map]
    rw [hinner]
    exact ih _

theorem translate_batch_nil (u : Upstream) (target : String) :
    translate_batch u [] target = [] := by
  rfl

theorem translate_batch_no_pending (u : Upstream) (items : List TItem) (target : String)
    (h1 : items ≠ []) (h2 : pendingFrom target 0 items = []) :
    translate_batch u items target = initialResult target items := by
  unfold translate_batch
  rw [if_neg h1]
  show (if pendingFrom target 0 items = [] then initialResult target items
        else (byLangGroups (pendingFrom target 0 items)).foldl
          (fun r g => (chunksOf BATCH_SIZE g.2).foldl (fun r2 b => applyChunk u g.1 b r2) r)
          (initialResult target items)) = initialResult target items
  rw [if_pos h2]

theorem translate_batch_processAll (u : Upstream) (items : List TItem) (target : String)
    (h1 : items ≠ []) (h2 : pendingFrom target 0 items ≠ []) :
    translate_batch u items target
      = processAll u (allBatches (pendingFrom target 0 items))
          (initialResult target items) := by
  unfold translate_batch
  rw [if_neg h1]
  show (if pendingFrom target 0 items = [] then initialResult target items
        else (byLangGroups (pendingFrom target 0 items)).foldl
          (fun r g => (chunksOf BATCH_SIZE g.2).foldl (fun r2 b => applyChunk u g.1 b r2) r)
          (initialResult target items)) = _
  rw [if_neg h2]
  unfold allBatches
  exact foldl_groups_eq u _ _

theorem initialResult_length (target : String) (items : List TItem) :
    (initialResult target items).length = items.length := by
  unfold initialResult
  rw [List.length_map]

theorem translate_batch_length (u : Upstream) (items : List TItem) (target : String) :
    (translate_batch u items target).length = items.length := by
  by_cases h1 : items = []
  · subst h1; rfl
  · by_cases h2 : pendingFrom target 0 items = []
    · rw [translate_batch_no_pending u items target h1 h2, initialResult_length]
    · rw [translate_batch_processAll u items target h1 h2, processAll_length,
        initialResult_length]

end TranslatorLemmas3

section TranslatorLemmas4

open Translator

theorem get_of_getElem? {α : Type} {l : List α} {i : ℕ} {x : α} (h : l[i]? = some x)
    (hi : i < l.length) : l.get ⟨i, hi⟩ = x := by
  rw [List.get_eq_getElem]
  have h2 := List.getElem?_eq_getElem hi
  rw [h] at h2
  exact (Option.some.inj h2).symm

theorem chunksOf_small {α : Type} (k : ℕ) (a : α) (rest : List α) (h : rest.length ≤ k - 1) :
    chunksOf k (a :: rest) = [a :: rest] := by
  rw [chunksOf, List.take_of_length_le h, List.drop_eq_nil_of_le h]
  simp [chunksOf]

theorem replyVal_contract_violated (u : Upstream) (lg : String) (b : List (ℕ × String))
    (p : ℕ) (h : contractViolated (b.map (fun e => e.2)) (u lg (b.map (fun e => e.2)))) :
    replyVal u lg b p = none := by
  unfold replyVal
  cases hu : u lg (b.map (fun e => e.2)) with
  | ok xs =>
    rw [hu] at h
    simp only [contractViolated] at h
    rw [List.length_map] at h
    dsimp only
    rw [if_neg h]
  | nonList => rfl
  | exn => rfl

theorem paperUrls_eq (rows : List DbRow) :
    paperUrls rows = (paperItems rows).map (fun x => x.url) := by
  unfold paperUrls paperItems
  rw [List.map_map]
  rfl

theorem translate_batch_untouched (u : Upstream) (items : List TItem) (target : String)
    (i : ℕ) (hitems : items ≠ [])
    (hnp : ∀ e ∈ pendingFrom target 0 items, e.1 ≠ i) :
    (translate_batch u items target)[i]? = (initialResult target items)[i]? := by
  by_cases htt : pendingFrom target 0 items = []
  · rw [translate_batch_no_pending u items target hitems htt]
  · rw [translate_batch_processAll u items target hitems htt]
    refine processAll_getElem?_ne u _ _ i ?_
    intro gb hgb e he hei
    rcases mem_batch_pending hgb he with ⟨e2, he2, h1, _, _⟩
    exact hnp e2 he2 (h1.trans hei)

theorem translate_batch_spec (u : Upstream) (items : List TItem) (target : String)
    (i : ℕ) (it : TItem) (hit : items[i]? = some it) :
    (stripStr it.text = "" → (translate_batch u items target)[i]? = some none)
    ∧ (stripStr it.text ≠ "" → it.lang = target →
        (translate_batch u items target)[i]? = some (some (stripStr it.text)))
    ∧ (stripStr it.text ≠ "" → it.lang ≠ target →
        ∃ b p, (it.lang, b) ∈ allBatches (pendingFrom target 0 items)
          ∧ b[p]? = some (i, it.text)
          ∧ (translate_batch u items target)[i]? = some (replyVal u it.lang b p)) := by
  rcases List.getElem?_eq_some.mp hit with ⟨hi, hgeti⟩
  have hitems : items ≠ [] := List.ne_nil_of_length_pos (by omega)
  have hget : items.get ⟨i, hi⟩ = it := get_of_getElem? hit hi
  have hinit : (initialResult target items)[i]? = some
      (if stripStr it.text = "" then none
       else if it.lang = target then some (stripStr it.text) else none) := by
    unfold initialResult
    rw [List.getElem?_map, hit]
    rfl
  refine ⟨?_, ?_, ?_⟩
  · intro hblank
    have hnotpend : ∀ e ∈ pendingFrom target 0 items, e.1 ≠ i := by
      intro e he hei
      rcases pendingFrom_mem items 0 e he with ⟨i2, hi2, h1, _, _, h4, _⟩
      have hii : i2 = i := by omega
      subst hii
      rw [get_of_getElem? hit hi2] at h4
      exact h4 hblank
    rw [translate_batch_untouched u items target i hitems hnotpend, hinit, if_pos hblank]
  · intro hblank hlangt
    have hnotpend : ∀ e ∈ pendingFrom target 0 items, e.1 ≠ i := by
      intro e he hei
      rcases pendingFrom_mem items 0 e he with ⟨i2, hi2, h1, _, _, _, h5⟩
      have hii : i2 = i := by omega
      subst hii
      rw [get_of_getElem? hit hi2] at h5
      exact h5 hlangt
    rw [translate_batch_untouched u items target i hitems hnotpend, hinit,
      if_neg hblank, if_pos hlangt]
  · intro hblank hlang
    have he : ((i : ℕ), it.text, it.lang) ∈ pendingFrom target 0 items := by
      have h0 := @pendingFrom_mem_of target items 0 i hi
        (by rw [hget]; exact hblank) (by rw [hget]; exact hlang)
      rw [hget, Nat.zero_add] at h0
      exact h0
    have hlmem : it.lang ∈ firstOccs ((pendingFrom target 0 items).map (fun e => e.2.2)) := by
      rw [mem_firstOccs]
      exact List.mem_map.mpr ⟨(i, it.text, it.lang), he, rfl⟩
    have hgmem : (it.lang,
        ((pendingFrom target 0 items).filter (fun e => e.2.2 = it.lang)).map
          (fun e => (e.1, e.2.1)))
        ∈ byLangGroups (pendingFrom target 0 items) := by
      unfold byLangGroups
      exact List.mem_map.mpr ⟨it.lang, hlmem, rfl⟩
    have hein : ((i : ℕ), it.text)
        ∈ ((pendingFrom target 0 items).filter (fun e => e.2.2 = it.lang)).map
            (fun e => (e.1, e.2.1)) := by
      refine List.mem_map.mpr ⟨(i, it.text, it.lang), ?_, rfl⟩
      exact List.mem_filter.mpr ⟨he, by simp⟩
    have hflat : ((i : ℕ), it.text)
        ∈ (chunksOf BATCH_SIZE
            (((pendingFrom target 0 items).filter (fun e => e.2.2 = it.lang)).map
              (fun e => (e.1, e.2.1)))).flatten := by
      rw [chunksOf_flatten]
      exact hein
    rcases List.mem_flatten.mp hflat with ⟨b, hbmem, hbe⟩
    have hgbmem : (it.lang, b) ∈ allBatches (pendingFrom target 0 items) := by
      unfold allBatches
      exact List.mem_flatMap.mpr ⟨_, hgmem, List.mem_map.mpr ⟨b, hbmem, rfl⟩⟩
    rcases List.mem_iff_getElem?.mp hbe with ⟨p, hp⟩
    rcases List.append_of_mem hgbmem with ⟨B1, B2, hdecomp⟩
    have hnd0 := @flatIdx_nodup target items
    rw [hdecomp] at hnd0
    unfold flatIdx at hnd0
    rw [List.flatMap_append, List.flatMap_cons] at hnd0
    have hnd1 := (List.nodup_append.mp hnd0).2.1
    have hndb : (b.map (fun e => e.1)).Nodup := (List.nodup_append.mp hnd1).1
    have hdisj := (List.nodup_append.mp hnd1).2.2
    have hB2 : ∀ gb ∈ B2, ∀ e2 ∈ gb.2, e2.1 ≠ ((i, it.text) : ℕ × String).1 := by
      intro gb hgb e2 he2 hei
      have himem : (i : ℕ) ∈ b.map (fun e => e.1) :=
        List.mem_map.mpr ⟨(i, it.text), hbe, rfl⟩
      have h2 : (i : ℕ) ∈ B2.flatMap (fun gb => gb.2.map (fun e => e.1)) :=
        List.mem_flatMap.mpr ⟨gb, hgb, List.mem_map.mpr ⟨e2, he2, hei⟩⟩
      exact (List.disjoint_left.mp hdisj himem) h2
    have hlen : ((i, it.text) : ℕ × String).1 < (initialResult target items).length := by
      rw [initialResult_length]
      exact hi
    have htt2 : pendingFrom target 0 items ≠ [] := by
      intro h
      rw [h] at he
      simp at he
    refine ⟨b, p, hgbmem, hp, ?_⟩
    rw [translate_batch_processAll u items target hitems htt2, hdecomp]
    exact processAll_getElem?_at u B1 B2 it.lang b p (i, it.text)
      (initialResult target items) hndb hp hB2 hlen

theorem translate_batch_all_none (u : Upstream) (items : List TItem) (target : String)
    (hviol : ∀ lg req, contractViolated req (u lg req))
    (hlang : ∀ x ∈ items, x.lang ≠ target) :
    ∀ (i : ℕ) (it : TItem), items[i]? = some it →
      (translate_batch u items target)[i]? = some none := by
  intro i it hit
  have hspec := translate_batch_spec u items target i it hit
  by_cases hbl : stripStr it.text = ""
  · exact hspec.1 hbl
  · have hmem : it ∈ items := List.mem_iff_getElem?.mpr ⟨i, hit⟩
    rcases hspec.2.2 hbl (hlang it hmem) with ⟨b, p, _, _, hres⟩
    rw [hres, replyVal_contract_violated u it.lang b p (hviol it.lang _)]

end TranslatorLemmas4

section AlignmentTheorems

open Translator

/-- C10: the implicit alignment invariant of batch translation. For every
upstream behaviour and every article row list, translate_batch returns a
list of exactly one entry per input item; the url_map entry at position i is
the url of the item at position i, so the caller zip pairs each result with
its own article; a blank (empty or whitespace-only) text yields None at its
position; a text already in the target language yields its stripped text;
every other text is carried, with its original index, inside exactly one
upstream batch of its language, and its position receives exactly the value
of that batch reply at its in-batch offset, which is None whenever the
reply violates the length contract. -/
theorem translate_batch_alignment (u : Upstream) (rows : List DbRow) (i : ℕ) (it : TItem)
    (hit : (paperItems rows)[i]? = some it) :
    (translate_batch u (paperItems rows) target_lang).length = (paperItems rows).length
    ∧ (paperUrls rows)[i]? = some it.url
    ∧ (stripStr it.text = "" →
        (translate_batch u (paperItems rows) target_lang)[i]? = some none)
    ∧ (stripStr it.text ≠ "" → it.lang = target_lang →
        (translate_batch u (paperItems rows) target_lang)[i]?
          = some (some (stripStr it.text)))
    ∧ (stripStr it.text ≠ "" → it.lang ≠ target_lang →
        ∃ b p, (it.lang, b) ∈ allBatches (pendingFrom target_lang 0 (paperItems rows))
          ∧ b[p]? = some (i, it.text)
          ∧ (translate_batch u (paperItems rows) target_lang)[i]?
              = some (replyVal u it.lang b p)
          ∧ (contractViolated (b.map (fun e => e.2)) (u it.lang (b.map (fun e => e.2))) →
              (translate_batch u (paperItems rows) target_lang)[i]? = some none)) := by
  have hspec := translate_batch_spec u (paperItems rows) target_lang i it hit
  refine ⟨translate_batch_length u _ _, ?_, hspec.1, hspec.2.1, ?_⟩
  · rw [paperUrls_eq, List.getElem?_map, hit]
    rfl
  · intro hbl hlang
    rcases hspec.2.2 hbl hlang with ⟨b, p, h1, h2, h3⟩
    refine ⟨b, p, h1, h2, h3, ?_⟩
    intro hcv
    rw [h3, replyVal_contract_violated u it.lang b p hcv]

/-- C10 witness: three rows (a whitespace-only Spanish title, a Spanish
title, an English title) under an echoing upstream: the result has one
entry per item, the url at position 1 is that item's url, the blank entry
is None and the same-language entry is the stripped title. -/
theorem translate_batch_alignment_witness :
    (translate_batch (fun _ req => Reply.ok (req.map (fun t => String.append t "!")))
        (paperItems [⟨"u0", "es", "  "⟩, ⟨"u1", "es", "Hola"⟩, ⟨"u2", "en", "Hi"⟩])
        target_lang).length
      = (paperItems [⟨"u0", "es", "  "⟩, ⟨"u1", "es", "Hola"⟩, ⟨"u2", "en", "Hi"⟩]).length
    ∧ (paperUrls [⟨"u0", "es", "  "⟩, ⟨"u1", "es", "Hola"⟩, ⟨"u2", "en", "Hi"⟩])[1]?
        = some "u1"
    ∧ (translate_batch (fun _ req => Reply.ok (req.map (fun t => String.append t "!")))
        (paperItems [⟨"u0", "es", "  "⟩, ⟨"u1", "es", "Hola"⟩, ⟨"u2", "en", "Hi"⟩])
        target_lang)[0]? = some none
    ∧ (translate_batch (fun _ req => Reply.ok (req.map (fun t => String.append t "!")))
        (paperItems [⟨"u0", "es", "  "⟩, ⟨"u1", "es", "Hola"⟩, ⟨"u2", "en", "Hi"⟩])
        target_lang)[2]? = some (some (stripStr "Hi")) := by
  have H1 := translate_batch_alignment
    (fun _ req => Reply.ok (req.map (fun t => String.append t "!")))
    [⟨"u0", "es", "  "⟩, ⟨"u1", "es", "Hola"⟩, ⟨"u2", "en", "Hi"⟩]
    1 ⟨"Hola", "es", "u1"⟩ (by decide)
  have H0 := translate_batch_alignment
    (fun _ req => Reply.ok (req.map (fun t => String.append t "!")))
    [⟨"u0", "es", "  "⟩, ⟨"u1", "es", "Hola"⟩, ⟨"u2", "en", "Hi"⟩]
    0 ⟨"  ", "es", "u0"⟩ (by decide)
  have H2 := translate_batch_alignment
    (fun _ req => Reply.ok (req.map (fun t => String.append t "!")))
    [⟨"u0", "es", "  "⟩, ⟨"u1", "es", "Hola"⟩, ⟨"u2", "en", "Hi"⟩]
    2 ⟨"Hi", "en", "u2"⟩ (by decide)
  exact ⟨H1.1, H1.2.1, H0.2.2.1 (by decide), H2.2.2.2.1 (by decide) rfl⟩

end AlignmentTheorems

section SameLanguageTheorems

open Translator

/-- C4 counterexample: the same-language copy is not verbatim. A title with
surrounding whitespace whose source language is the target language is
written back stripped: translate_batch returns "Hello world" for the input
" Hello world ", which differs from the input character for character. -/
theorem same_language_copy_counterexample :
    translate_batch (fun _ _ => Reply.exn) [⟨" Hello world ", "en", "u"⟩] "en"
      = [some "Hello world"]
    ∧ (" Hello world " : String) ≠ "Hello world" := by
  constructor
  · rfl
  · decide

/-- C4 (amended): the same-language copy is verbatim up to stripping. For
every upstream, item list and target, an item whose text is non-blank and
whose source language equals the target yields, at its position, its text
with leading and trailing whitespace stripped (text.strip() is what the
code stores, so unstripped titles are not copied character for
character). -/
theorem same_language_copy_stripped (u : Upstream) (items : List TItem) (target : String)
    (i : ℕ) (it : TItem) (hit : items[i]? = some it)
    (hblank : stripStr it.text ≠ "") (hlang : it.lang = target) :
    (translate_batch u items target)[i]? = some (some (stripStr it.text)) :=
  (translate_batch_spec u items target i it hit).2.1 hblank hlang

/-- C4 witness: the single-item same-language run on " Hello world ". -/
theorem same_language_copy_stripped_witness :
    ([(⟨" Hello world ", "en", "u"⟩ : TItem)])[0]? = some ⟨" Hello world ", "en", "u"⟩
    ∧ stripStr " Hello world " ≠ ""
    ∧ (translate_batch (fun _ _ => Reply.exn) [⟨" Hello world ", "en", "u"⟩] "en")[0]?
        = some (some (stripStr " Hello world ")) :=
  ⟨by decide, by decide, same_language_copy_stripped (fun _ _ => Reply.exn)
    [⟨" Hello world ", "en", "u"⟩] "en" 0 ⟨" Hello world ", "en", "u"⟩ (by decide)
    (by decide) rfl⟩

end SameLanguageTheorems

section FallbackTheorems

open Translator

/-- C3 (amended): a contract-violating upstream (non-list, exception, or
wrong-length reply on every call) marks every batch entry as failed — each
position of a non-blank, non-target-language item receives None — and the
batch path of translate_paper then writes no title_translated update at
all: translate_batch returns normally, so the per-title except-branch
fallback of translate_paper never runs for contract violations and no
equivalent of the per-title successes is produced. -/
theorem contract_violation_no_fallback (u : Upstream) (rows : List DbRow)
    (hviol : ∀ lg req, contractViolated req (u lg req))
    (hlang : ∀ r ∈ rows, r.lang ≠ target_lang) :
    (∀ (j : ℕ) (it : TItem), (paperItems rows)[j]? = some it →
        (translate_batch u (paperItems rows) target_lang)[j]? = some none)
    ∧ translate_paper_updates u rows = [] := by
  have hlitems : ∀ x ∈ paperItems rows, x.lang ≠ target_lang := by
    intro x hx
    unfold paperItems at hx
    rcases List.mem_map.mp hx with ⟨r, hr, heq⟩
    rw [← heq]
    exact hlang r (List.mem_filter.mp hr).1
  have hpoint := translate_batch_all_none u (paperItems rows) target_lang hviol hlitems
  refine ⟨hpoint, ?_⟩
  by_cases hpi : paperItems rows = []
  · simp only [translate_paper_updates]
    rw [if_pos hpi]
  · simp only [translate_paper_updates]
    rw [if_neg hpi]
    refine List.filterMap_eq_nil_iff.mpr ?_
    intro a ha
    obtain ⟨a1, a2⟩ := a
    have hv : a2 ∈ translate_batch u (paperItems rows) target_lang :=
      (List.of_mem_zip ha).2
    rcases List.mem_iff_getElem?.mp hv with ⟨j, hj⟩
    have hjlt : j < (paperItems rows).length := by
      rcases List.getElem?_eq_some.mp hj with ⟨hlt, _⟩
      rw [translate_batch_length] at hlt
      exact hlt
    have hitj : (paperItems rows)[j]? = some ((paperItems rows).get ⟨j, hjlt⟩) := by
      rw [List.get_eq_getElem]
      exact List.getElem?_eq_getElem hjlt
    have hnone := hpoint j _ hitj
    rw [hj] at hnone
    have ha2 : a2 = none := Option.some.inj hnone
    subst ha2
    rfl

/-- C3 witness: two Spanish rows under an upstream that always returns a
parsed non-list: both result entries are None and the batch path writes no
update. -/
theorem contract_violation_no_fallback_witness :
    (translate_batch (fun _ _ => Reply.nonList)
        (paperItems [⟨"u1", "es", "Hola uno"⟩, ⟨"u2", "es", "Hola dos"⟩])
        target_lang)[0]? = some none
    ∧ (translate_batch (fun _ _ => Reply.nonList)
        (paperItems [⟨"u1", "es", "Hola uno"⟩, ⟨"u2", "es", "Hola dos"⟩])
        target_lang)[1]? = some none
    ∧ translate_paper_updates (fun _ _ => Reply.nonList)
        [⟨"u1", "es", "Hola uno"⟩, ⟨"u2", "es", "Hola dos"⟩] = [] :=
  ⟨(contract_violation_no_fallback (fun _ _ => Reply.nonList)
      [⟨"u1", "es", "Hola uno"⟩, ⟨"u2", "es", "Hola dos"⟩]
      (fun _ _ => True.intro) (by decide)).1 0 ⟨"Hola uno", "es", "u1"⟩ (by decide),
   (contract_violation_no_fallback (fun _ _ => Reply.nonList)
      [⟨"u1", "es", "Hola uno"⟩, ⟨"u2", "es", "Hola dos"⟩]
      (fun _ _ => True.intro) (by decide)).1 1 ⟨"Hola dos", "es", "u2"⟩ (by decide),
   (contract_violation_no_fallback (fun _ _ => Reply.nonList)
      [⟨"u1", "es", "Hola uno"⟩, ⟨"u2", "es", "Hola dos"⟩]
      (fun _ _ => True.intro) (by decide)).2⟩

end FallbackTheorems

section FallbackCounterexample

open Translator

/-- C3 counterexample: a wrong-length reply (one string for a batch of two)
marks the whole batch failed, but no per-title fallback follows:
translate_batch returns normally, translate_paper takes the batch path and
writes no update at all, whereas the per-title success case would write a
translation for both titles — the resulting updates are not equivalent. -/
theorem batch_fallback_counterexample :
    translate_paper_updates (fun _ _ => Reply.ok ["Hello one"])
      [⟨"u1", "es", "Hola uno"⟩, ⟨"u2", "es", "Hola dos"⟩] = []
    ∧ fallback_updates (fun _ t => Except.ok (String.append "T " t))
        [⟨"u1", "es", "Hola uno"⟩, ⟨"u2", "es", "Hola dos"⟩]
      = [("u1", "T Hola uno"), ("u2", "T Hola dos")] := by
  have hch : chunksOf BATCH_SIZE [((0 : ℕ), "Hola uno"), (1, "Hola dos")]
      = [[((0 : ℕ), "Hola uno"), (1, "Hola dos")]] :=
    chunksOf_small BATCH_SIZE (0, "Hola uno") [(1, "Hola dos")] (by decide)
  have hpend : pendingFrom target_lang 0
      (paperItems [⟨"u1", "es", "Hola uno"⟩, ⟨"u2", "es", "Hola dos"⟩])
      = [((0 : ℕ), "Hola uno", "es"), (1, "Hola dos", "es")] := by decide
  have hgr : byLangGroups [((0 : ℕ), "Hola uno", "es"), (1, "Hola dos", "es")]
      = [("es", [((0 : ℕ), "Hola uno"), (1, "Hola dos")])] := by decide
  have hab : allBatches (pendingFrom target_lang 0
      (paperItems [⟨"u1", "es", "Hola uno"⟩, ⟨"u2", "es", "Hola dos"⟩]))
      = [("es", [((0 : ℕ), "Hola uno"), (1, "Hola dos")])] := by
    unfold allBatches
    rw [hpend, hgr]
    simp [hch]
  have hb : translate_batch (fun _ _ => Reply.ok ["Hello one"])
      (paperItems [⟨"u1", "es", "Hola uno"⟩, ⟨"u2", "es", "Hola dos"⟩]) target_lang
      = [none, none] := by
    rw [translate_batch_processAll _ _ _ (by decide) (by decide), hab]
    decide
  constructor
  · simp only [translate_paper_updates]
    rw [if_neg (by decide :
      ¬(paperItems [(⟨"u1", "es", "Hola uno"⟩ : DbRow), ⟨"u2", "es", "Hola dos"⟩] = []))]
    rw [hb]
    decide
  · decide

end FallbackCounterexample
